import Mathlib

/-!
# bamdownsamplerandom: threshold, selection loops and progress reporting

Shallow embedding of `src/programs/bamdownsamplerandom.cpp`.

* `double` values are represented by the rational number they denote; every
  arithmetic operation of the program on doubles is followed by an explicit
  rounding to the binary64 grid (`rnd`, round to nearest, ties to even, with
  gradual underflow).  Overflow cannot occur: all operands are at most `2^32`.
  NaN and the infinities are not represented.
* `uint32_t` and `uint64_t` are natural numbers reduced modulo `2^32`, `2^64`.
* The collating decoder, the alignment decoder and the block writer are lists:
  the units still to be delivered and the blocks handed to the writer so far.
* `libmaus2::random::Random::rand32` is a parameter `rand : Nat → Nat`, the
  value returned by the `i`-th call after `Random::setup`.
* The digest `MurmurHash3_x64_128` is a parameter (`DigestAlg`).
-/

namespace Bamdownsamplerandom

/-! ## Machine integers -/

/-- Value of `std::numeric_limits<uint32_t>::max()`. -/
def UINT32_MAX : Nat := 4294967295

/-- Reduction of a natural number to `uint32_t`. -/
def u32 (n : Nat) : Nat := n % 2 ^ 32

/-- Reduction of a natural number to `uint64_t`. -/
def u64 (n : Nat) : Nat := n % 2 ^ 64

/-- Reduction of a natural number to `uint8_t`. -/
def u8 (n : Nat) : Nat := n % 2 ^ 8

/-! ## binary64 arithmetic -/

/-- Nearest integer of a rational, ties going to the even neighbour. -/
def roundHalfEven (q : ℚ) : ℤ :=
  if q - ⌊q⌋ < 1 / 2 then ⌊q⌋
  else if 1 / 2 < q - ⌊q⌋ then ⌊q⌋ + 1
  else if ⌊q⌋ % 2 = 0 then ⌊q⌋ else ⌊q⌋ + 1

/-- Exponent of the binade of `x` in binary64: `⌊log₂ |x|⌋`, but never below
the exponent `-1022` of the subnormal range. -/
def binade (x : ℚ) : ℤ := max (Int.log 2 |x|) (-1022)

/-- Spacing of the binary64 grid around `x` (53 significant bits). -/
def ulp (x : ℚ) : ℚ := (2 : ℚ) ^ (binade x - 52)

/-- Rounding of a rational to binary64, round to nearest, ties to even. -/
def rnd (x : ℚ) : ℚ := (roundHalfEven (x / ulp x) : ℚ) * ulp x

/-- Product `a * b` of two doubles. -/
def fmul (a b : ℚ) : ℚ := rnd (a * b)

/-- Sum `a + b` of two doubles. -/
def fadd (a b : ℚ) : ℚ := rnd (a + b)

/-- Function `std::floor` on doubles (the result is always representable). -/
def ffloor (a : ℚ) : ℚ := ((⌊a⌋ : ℤ) : ℚ)

/-- Function `std::min(a,b)`: `(b < a) ? b : a`. -/
def stdmin (a b : ℚ) : ℚ := if b < a then b else a

/-- Function `std::max(a,b)`: `(a < b) ? b : a`. -/
def stdmax (a b : ℚ) : ℚ := if a < b then b else a

/-- Conversion `static_cast<uint32_t>(x)` of a double: truncation towards zero (the
operand is never negative in this program). -/
def castU32 (x : ℚ) : Nat := u32 (Int.toNat ⌊x⌋)

/-- Conversion `static_cast<double>(n)` of a `uint32_t` (exact). -/
def castDouble (n : Nat) : ℚ := (n : ℚ)

/-! ## Threshold (lines 249-258 and 362-371) -/

/-- The value `up` computed in `bamdownsamplerandom` (lines 249-258). -/
def bamdownsamplerandom_up (p : ℚ) : Nat :=
  if p = 1 then UINT32_MAX
  else castU32 (stdmax 0
    (stdmin (ffloor (fadd (fmul p (castDouble UINT32_MAX)) (1 / 2)))
      (castDouble UINT32_MAX)))

/-- The value `up` computed in `bamdownsamplerandomHash` (lines 362-371). -/
def bamdownsamplerandomHash_up (p : ℚ) : Nat :=
  if p = 1 then UINT32_MAX
  else castU32 (stdmax 0
    (stdmin (ffloor (fadd (fmul p (castDouble UINT32_MAX)) (1 / 2)))
      (castDouble UINT32_MAX)))

/-- The rounded value `floor(p * UINT32_MAX + 0.5)` of lines 254 and 367, as an integer. -/
def roundedProduct (p : ℚ) : ℤ := ⌊fadd (fmul p (castDouble UINT32_MAX)) (1 / 2)⌋

/-- Threshold as the specification words it: the maximum when `p == 1`, otherwise
`floor(p * UINT32_MAX + 0.5)` evaluated in double arithmetic, without any clamp. -/
def thresholdRef (p : ℚ) : ℤ :=
  if p = 1 then 2 ^ 32 - 1 else ⌊fadd (fmul p 4294967295) (1 / 2)⌋

/-! ## Data model -/

/-- A block as handed to `writeBamBlock`: the bytes behind the pointer and the size. -/
structure BamBlock where
  D : List Nat
  blocksize : Nat
deriving DecidableEq

/-- The fields of `CircularHashCollatingBamDecoder::OutputBufferEntry` read by
`runSelection`. -/
structure OutputBufferEntry where
  Da : List Nat
  blocksizea : Nat
  Db : List Nat
  blocksizeb : Nat
  fpair : Bool
  fsingle : Bool
  forphan1 : Bool
  forphan2 : Bool
deriving DecidableEq

/-- The fields of `BamAlignment` read by `runSelectionHash`: the query name (the
bytes before the terminating zero), the block size and the record data. -/
structure BamAlignment where
  name : List Nat
  blocksize : Nat
  D : List Nat
deriving DecidableEq

/-- Lines written to `std::cerr` by the selection loops.  A progress line
(lines 149-156, 207-214) carries `cnt >> 20` and `ocnt`; its throughput figures
depend on the clock and are left out.  The closing line (160, 218) carries `cnt`. -/
inductive LogLine where
  | progress (mcnt : Nat) (kept : Nat)
  | total (cnt : Nat)
deriving DecidableEq

/-- Local variables of a selection loop together with its effects so far. -/
structure SelState (β : Type) where
  cnt : Nat
  bcnt : Nat
  ocnt : Nat
  Pout : List β
  cerr : List LogLine

/-- State at loop entry (lines 84-88, 167-171). -/
def SelState.init (β : Type) : SelState β :=
  { cnt := 0, bcnt := 0, ocnt := 0, Pout := [], cerr := [] }

/-- Value of `verbshift`. -/
def verbshift : Nat := 20

/-- Progress check of lines 147-157 and 205-215. -/
def report {β : Type} (precnt : Nat) (s : SelState β) : SelState β :=
  if precnt >>> verbshift ≠ s.cnt >>> verbshift then
    { s with cerr := s.cerr ++ [LogLine.progress (s.cnt >>> 20) s.ocnt] }
  else s

/-! ## Random mode (lines 80-161) -/

/-- One iteration of the loop of `runSelection` (lines 98-157) for the unit `ob`
and the draw `rv`. -/
def runSelectionBody (up rv : Nat) (ob : OutputBufferEntry) (s : SelState BamBlock) :
    SelState BamBlock :=
  let precnt := s.cnt
  let s1 : SelState BamBlock :=
    if ob.fpair then
      let s0 : SelState BamBlock :=
        if rv ≤ up then
          { s with
            Pout := s.Pout ++ [⟨ob.Da, ob.blocksizea⟩, ⟨ob.Db, ob.blocksizeb⟩]
            ocnt := u64 (s.ocnt + 2) }
        else s
      { s0 with cnt := u64 (s0.cnt + 2), bcnt := u64 (s0.bcnt + u64 (ob.blocksizea + ob.blocksizeb)) }
    else if ob.fsingle then
      let s0 : SelState BamBlock :=
        if rv ≤ up then
          { s with Pout := s.Pout ++ [⟨ob.Da, ob.blocksizea⟩], ocnt := u64 (s.ocnt + 1) }
        else s
      { s0 with cnt := u64 (s0.cnt + 1), bcnt := u64 (s0.bcnt + ob.blocksizea) }
    else if ob.forphan1 then
      let s0 : SelState BamBlock :=
        if rv ≤ up then
          { s with Pout := s.Pout ++ [⟨ob.Da, ob.blocksizea⟩], ocnt := u64 (s.ocnt + 1) }
        else s
      { s0 with cnt := u64 (s0.cnt + 1), bcnt := u64 (s0.bcnt + ob.blocksizea) }
    else if ob.forphan2 then
      let s0 : SelState BamBlock :=
        if rv ≤ up then
          { s with Pout := s.Pout ++ [⟨ob.Da, ob.blocksizea⟩], ocnt := u64 (s.ocnt + 1) }
        else s
      { s0 with cnt := u64 (s0.cnt + 1), bcnt := u64 (s0.bcnt + ob.blocksizea) }
    else s
  report precnt s1

/-- The loop of `runSelection` (line 96): `CHCBD` lists the units `process()` still
delivers, `i` counts the calls of `rand32` made so far. -/
def runSelectionLoop (up : Nat) (rand : Nat → Nat) :
    List OutputBufferEntry → Nat → SelState BamBlock → SelState BamBlock
  | [], _, s => s
  | ob :: rest, i, s =>
    runSelectionLoop up rand rest (i + 1) (runSelectionBody up (u32 (rand i)) ob s)

/-- Function `runSelection` (lines 80-161). -/
def runSelection (CHCBD : List OutputBufferEntry) (up : Nat) (rand : Nat → Nat) (i : Nat) :
    SelState BamBlock :=
  let s := runSelectionLoop up rand CHCBD i (SelState.init BamBlock)
  { s with cerr := s.cerr ++ [LogLine.total s.cnt] }

/-! ## Hash mode (lines 163-219) -/

/-- The digest object of line 179 (`MurmurHash3_x64_128`, defined in libmaus2):
its digest length and the bytes produced by `init(seed); update(msg); digest(D)`,
which fill the array `D` of `getDigestLength` bytes. -/
structure DigestAlg where
  getDigestLength : Nat
  digest : Nat → List Nat → List Nat
  digest_length : ∀ seed msg, (digest seed msg).length = getDigestLength

/-- The fold of lines 192-194 over the digest array `D` of `dlen` bytes. -/
def foldDigest (D : List Nat) (dlen : Nat) : Nat :=
  (List.range dlen).foldl
    (fun rv i => rv ^^^ u32 (u8 (D.getD i 0) <<< (8 * (i &&& 3)))) 0

/-- The value `rv` of a record named `qname` (lines 186-194). -/
def hashValue (dig : DigestAlg) (seed : Nat) (qname : List Nat) : Nat :=
  foldDigest (dig.digest seed qname) dig.getDigestLength

/-- One iteration of the loop of `runSelectionHash` (lines 185-215). -/
def runSelectionHashBody (dig : DigestAlg) (up seed : Nat) (algn : BamAlignment)
    (s : SelState BamAlignment) : SelState BamAlignment :=
  let precnt := s.cnt
  let rv := hashValue dig seed algn.name
  let s0 : SelState BamAlignment :=
    if rv ≤ up then { s with Pout := s.Pout ++ [algn], ocnt := u64 (s.ocnt + 1) } else s
  let s1 : SelState BamAlignment :=
    { s0 with cnt := u64 (s0.cnt + 1), bcnt := u64 (s0.bcnt + u64 (algn.blocksize + 4)) }
  report precnt s1

/-- The loop of `runSelectionHash` (line 183) over the records `readAlignment()`
still delivers. -/
def runSelectionHashLoop (dig : DigestAlg) (up seed : Nat) :
    List BamAlignment → SelState BamAlignment → SelState BamAlignment
  | [], s => s
  | algn :: rest, s => runSelectionHashLoop dig up seed rest (runSelectionHashBody dig up seed algn s)

/-- Function `runSelectionHash` (lines 163-219). -/
def runSelectionHash (dig : DigestAlg) (BAD : List BamAlignment) (up seed : Nat) :
    SelState BamAlignment :=
  let s := runSelectionHashLoop dig up seed BAD (SelState.init BamAlignment)
  { s with cerr := s.cerr ++ [LogLine.total s.cnt] }

/-! ## Drivers (lines 221-332 and 334-444) -/

/-- Value of `getDefaultProb()`. -/
def getDefaultProb : ℚ := 1

/-- The part of `ArgInfo` the selection depends on: the value of key `p`, if given. -/
structure ArgInfo where
  p : Option ℚ

/-- The exception of lines 243-246 and 356-359: the fixed text of the message
followed by the value streamed after it. -/
structure LibMausException where
  text : String
  value : ℚ
deriving DecidableEq

/-- What a driver leaves behind: the exception it threw (if any), the units still
undelivered in the decoder, and the loop state (writer contents, log, counters). -/
structure Outcome (α β : Type) where
  exc : Option LibMausException
  undelivered : List α
  sel : SelState β

/-- Function `bamdownsamplerandom(arginfo, CHCBD)` (lines 221-332).  Header
rewriting and the md5/index callbacks do not touch the selection and are left out. -/
def bamdownsamplerandom (arginfo : ArgInfo) (CHCBD : List OutputBufferEntry)
    (rand : Nat → Nat) : Outcome OutputBufferEntry BamBlock :=
  let p := arginfo.p.getD getDefaultProb
  if p < 0 ∨ p > 1 then
    { exc := some ⟨"Value of p must be in [0,1] but is ", p⟩
      undelivered := CHCBD
      sel := SelState.init BamBlock }
  else
    let up := bamdownsamplerandom_up p
    { exc := none, undelivered := [], sel := runSelection CHCBD up rand 0 }

/-- Function `bamdownsamplerandomHash(arginfo, BAD)` (lines 334-444); the seed of
the digest is the first value of `rand32` (line 432). -/
def bamdownsamplerandomHash (dig : DigestAlg) (arginfo : ArgInfo) (BAD : List BamAlignment)
    (rand : Nat → Nat) : Outcome BamAlignment BamAlignment :=
  let p := arginfo.p.getD getDefaultProb
  if p < 0 ∨ p > 1 then
    { exc := some ⟨"Value of p must be in [0,1] but is ", p⟩
      undelivered := BAD
      sel := SelState.init BamAlignment }
  else
    let up := bamdownsamplerandomHash_up p
    { exc := none, undelivered := [], sel := runSelectionHash dig BAD up (u32 (rand 0)) }

/-! ## Reference notions used in the statements -/

/-- The blocks a unit carries, in their order: both blocks of a pair, the one block
of a single or orphan unit (an entry without any category flag carries none). -/
def unitBlocks (ob : OutputBufferEntry) : List BamBlock :=
  if ob.fpair then [⟨ob.Da, ob.blocksizea⟩, ⟨ob.Db, ob.blocksizeb⟩]
  else if ob.fsingle || ob.forphan1 || ob.forphan2 then [⟨ob.Da, ob.blocksizea⟩]
  else []

/-- Number of records of a unit: 2 for a pair, 1 for a single or orphan unit. -/
def unitRecords (ob : OutputBufferEntry) : Nat :=
  if ob.fpair then 2
  else if ob.fsingle || ob.forphan1 || ob.forphan2 then 1
  else 0

/-- Number of records of a stream of units. -/
def streamRecords (l : List OutputBufferEntry) : Nat := (l.map unitRecords).sum

/-- The blocks of those units whose draw is at most `up`, the unit at position `j`
of the list being paired with draw number `i + j`. -/
def keptBlocks (up : Nat) (rand : Nat → Nat) : List OutputBufferEntry → Nat → List BamBlock
  | [], _ => []
  | ob :: rest, i =>
    (if u32 (rand i) ≤ up then unitBlocks ob else []) ++ keptBlocks up rand rest (i + 1)

/-- Number of progress lines in a log. -/
def progressCount (l : List LogLine) : Nat :=
  l.countP (fun x => match x with
    | LogLine.progress _ _ => true
    | LogLine.total _ => false)

/-- The keep decision of hash mode (lines 186-196) as a function of the digest, the
seed, the threshold and the record name. -/
def hashKeep (dig : DigestAlg) (seed up : Nat) (qname : List Nat) : Bool :=
  decide (hashValue dig seed qname ≤ up)

/-- The value the specification gives for the fold: the XOR over all positions `i`
of a digest `D` of `D[i] << (8 * (i mod 4))`, taken modulo `2^32`. -/
def xorFold (D : List Nat) : Nat :=
  ((List.range D.length).foldr (fun i r => (D.getD i 0 <<< (8 * (i % 4))) ^^^ r) 0) % 2 ^ 32

/-- The `k`-th little-endian 32-bit word of a byte sequence. -/
def leWord (D : List Nat) (k : Nat) : Nat :=
  D.getD (4 * k) 0 + 2 ^ 8 * D.getD (4 * k + 1) 0 + 2 ^ 16 * D.getD (4 * k + 2) 0
    + 2 ^ 24 * D.getD (4 * k + 3) 0

/-- Number of bytes a unit adds to `bcnt` (lines 111, 122, 133, 144). -/
def unitBytes (ob : OutputBufferEntry) : Nat :=
  if ob.fpair then ob.blocksizea + ob.blocksizeb
  else if ob.fsingle || ob.forphan1 || ob.forphan2 then ob.blocksizea
  else 0

/-- Number of bytes of a stream of units. -/
def streamBytes (l : List OutputBufferEntry) : Nat := (l.map unitBytes).sum

/-- Number of bytes the records of a list add to `bcnt` in hash mode (line 203). -/
def alignmentBytes (l : List BamAlignment) : Nat := (l.map (fun a => a.blocksize + 4)).sum

/-- State of the loop of `runSelection` after the units `l` have been processed,
`i` calls of `rand32` having been made before the loop. -/
def stateAfter (up : Nat) (rand : Nat → Nat) (i : Nat) (l : List OutputBufferEntry) :
    SelState BamBlock :=
  runSelectionLoop up rand l i (SelState.init BamBlock)

/-- State of the loop of `runSelectionHash` after the records `l` have been processed. -/
def hashStateAfter (dig : DigestAlg) (up seed : Nat) (l : List BamAlignment) :
    SelState BamAlignment :=
  runSelectionHashLoop dig up seed l (SelState.init BamAlignment)

/-- The contents of the array `D` of `uint8_t` after `dig.digest(D.begin())`
(lines 181, 188-190) for a record named `qname`. -/
def digestBytes (dig : DigestAlg) (seed : Nat) (qname : List Nat) : List Nat :=
  (dig.digest seed qname).map u8

/-! ## Properties of the rounding -/

theorem floor_le_roundHalfEven (q : ℚ) : ⌊q⌋ ≤ roundHalfEven q := by
  unfold roundHalfEven
  split_ifs <;> omega

theorem roundHalfEven_le (q : ℚ) : roundHalfEven q ≤ ⌊q⌋ + 1 := by
  unfold roundHalfEven
  split_ifs <;> omega

theorem roundHalfEven_intCast (n : ℤ) : roundHalfEven (n : ℚ) = n := by
  simp [roundHalfEven]

theorem roundHalfEven_mono {a b : ℚ} (h : a ≤ b) : roundHalfEven a ≤ roundHalfEven b := by
  have hf : ⌊a⌋ ≤ ⌊b⌋ := Int.floor_mono h
  rcases hf.lt_or_eq with hlt | heq
  · calc roundHalfEven a ≤ ⌊a⌋ + 1 := roundHalfEven_le a
      _ ≤ ⌊b⌋ := hlt
      _ ≤ roundHalfEven b := floor_le_roundHalfEven b
  · unfold roundHalfEven
    rw [heq]
    split_ifs <;> first | omega | (exfalso; linarith)

theorem ulp_pos (x : ℚ) : 0 < ulp x := by
  unfold ulp
  positivity

theorem rnd_le_of_grid {x : ℚ} {n : ℤ} (h : x ≤ n * ulp x) : rnd x ≤ n * ulp x := by
  unfold rnd
  have hu := ulp_pos x
  have h1 : x / ulp x ≤ (n : ℚ) := by
    rw [div_le_iff₀ hu]; exact h
  have h2 : roundHalfEven (x / ulp x) ≤ n := by
    have := roundHalfEven_mono h1
    rwa [roundHalfEven_intCast] at this
  have h3 : (roundHalfEven (x / ulp x) : ℚ) ≤ (n : ℚ) := by exact_mod_cast h2
  exact mul_le_mul_of_nonneg_right h3 hu.le

theorem le_rnd_of_grid {x : ℚ} {n : ℤ} (h : n * ulp x ≤ x) : n * ulp x ≤ rnd x := by
  unfold rnd
  have hu := ulp_pos x
  have h1 : (n : ℚ) ≤ x / ulp x := by
    rw [le_div_iff₀ hu]; exact h
  have h2 : n ≤ roundHalfEven (x / ulp x) := by
    have := roundHalfEven_mono h1
    rwa [roundHalfEven_intCast] at this
  have h3 : (n : ℚ) ≤ (roundHalfEven (x / ulp x) : ℚ) := by exact_mod_cast h2
  exact mul_le_mul_of_nonneg_right h3 hu.le

theorem rnd_nonneg {x : ℚ} (hx : 0 ≤ x) : 0 ≤ rnd x := by
  have h := le_rnd_of_grid (x := x) (n := 0) (by simpa using hx)
  simpa using h

theorem rnd_eq_self_of_grid {x : ℚ} {n : ℤ} (h : x = n * ulp x) : rnd x = x := by
  have h1 := rnd_le_of_grid (x := x) (n := n) h.le
  have h2 := le_rnd_of_grid (x := x) (n := n) h.ge
  rw [← h] at h1 h2
  exact le_antisymm h1 h2

theorem binade_ge (x : ℚ) : -1022 ≤ binade x := le_max_right _ _

theorem lt_two_zpow_binade_succ (x : ℚ) : x < (2 : ℚ) ^ (binade x + 1) := by
  have h1 : |x| < ((2 : ℕ) : ℚ) ^ (Int.log 2 |x| + 1) := Int.lt_zpow_succ_log_self (by norm_num) _
  have h2 : ((2 : ℕ) : ℚ) ^ (Int.log 2 |x| + 1) ≤ (2 : ℚ) ^ (binade x + 1) := by
    rw [Nat.cast_ofNat]
    apply zpow_le_zpow_right₀ (by norm_num)
    unfold binade
    have := le_max_left (Int.log 2 |x|) (-1022)
    omega
  exact lt_of_le_of_lt (le_abs_self x) (lt_of_lt_of_le h1 h2)

theorem two_zpow_binade_le {x : ℚ} (hx : 0 < x) (hb : -1022 < binade x) :
    (2 : ℚ) ^ binade x ≤ x := by
  have hlog : binade x = Int.log 2 |x| := by
    unfold binade at hb ⊢
    rcases le_total (Int.log 2 |x|) (-1022) with h | h
    · rw [max_eq_right h] at hb; omega
    · exact max_eq_left h
  have h1 : ((2 : ℕ) : ℚ) ^ Int.log 2 |x| ≤ |x| :=
    Int.zpow_log_le_self (by norm_num) (abs_pos.mpr hx.ne')
  rw [hlog, abs_of_pos hx] at *
  simpa using h1

theorem binade_mono {x y : ℚ} (hx : 0 < x) (h : x ≤ y) : binade x ≤ binade y := by
  unfold binade
  apply max_le_max _ le_rfl
  apply Int.log_mono_right (abs_pos.mpr hx.ne')
  rw [abs_of_pos hx, abs_of_pos (lt_of_lt_of_le hx h)]
  exact h

theorem rnd_zero : rnd 0 = 0 := by
  simp [rnd, roundHalfEven]

theorem rnd_mono {x y : ℚ} (hx : 0 ≤ x) (h : x ≤ y) : rnd x ≤ rnd y := by
  rcases hx.lt_or_eq with hpos | hzero
  · have hy : 0 < y := lt_of_lt_of_le hpos h
    rcases (binade_mono hpos h).lt_or_eq with hlt | heq
    · have e1 : (2 : ℚ) ^ (binade x + 1) = ((2 ^ 53 : ℤ) : ℚ) * ulp x := by
        unfold ulp
        rw [show binade x + 1 = 53 + (binade x - 52) by ring, zpow_add₀ (by norm_num)]
        norm_num
      have e2 : (2 : ℚ) ^ (binade y) = ((2 ^ 52 : ℤ) : ℚ) * ulp y := by
        unfold ulp
        rw [show binade y = 52 + (binade y - 52) by ring, zpow_add₀ (by norm_num)]
        norm_num
      have a1 : rnd x ≤ (2 : ℚ) ^ (binade x + 1) := by
        rw [e1]
        apply rnd_le_of_grid
        rw [← e1]
        exact (lt_two_zpow_binade_succ x).le
      have a2 : (2 : ℚ) ^ (binade y) ≤ rnd y := by
        rw [e2]
        apply le_rnd_of_grid
        rw [← e2]
        exact two_zpow_binade_le hy (lt_of_le_of_lt (binade_ge x) hlt)
      have a3 : (2 : ℚ) ^ (binade x + 1) ≤ (2 : ℚ) ^ (binade y) :=
        zpow_le_zpow_right₀ (by norm_num) (by omega)
      exact le_trans a1 (le_trans a3 a2)
    · have hu : ulp x = ulp y := by unfold ulp; rw [heq]
      unfold rnd
      rw [hu]
      have hu0 := ulp_pos y
      have h1 : x / ulp y ≤ y / ulp y := div_le_div_of_nonneg_right h hu0.le
      have h2 : (roundHalfEven (x / ulp y) : ℚ) ≤ (roundHalfEven (y / ulp y) : ℚ) := by
        exact_mod_cast roundHalfEven_mono h1
      exact mul_le_mul_of_nonneg_right h2 hu0.le
  · rw [← hzero, rnd_zero]
    exact rnd_nonneg (hzero ▸ h)

theorem binade_eq {x : ℚ} {e : ℤ} (h1 : (2 : ℚ) ^ e ≤ x) (h2 : x < (2 : ℚ) ^ (e + 1))
    (he : -1022 ≤ e) : binade x = e := by
  have hx : 0 < x := lt_of_lt_of_le (by positivity) h1
  have hlog : Int.log 2 |x| = e := by
    rw [abs_of_pos hx]
    apply le_antisymm
    · have := (Int.lt_zpow_iff_log_lt (b := 2) (by norm_num) hx (x := e + 1)).mp
        (by simpa using h2)
      omega
    · exact (Int.zpow_le_iff_le_log (b := 2) (by norm_num) hx).mp (by simpa using h1)
  unfold binade
  rw [hlog]
  exact max_eq_left he

theorem rnd_UINT32_MAX : rnd (castDouble UINT32_MAX) = castDouble UINT32_MAX := by
  have hb : binade (castDouble UINT32_MAX) = 31 := by
    apply binade_eq <;> norm_num [castDouble, UINT32_MAX]
  apply rnd_eq_self_of_grid (n := 4294967295 * 2 ^ 21)
  unfold ulp
  rw [hb]
  norm_num [castDouble, UINT32_MAX]

theorem rnd_UINT32_MAX_add_half :
    rnd (castDouble UINT32_MAX + 1 / 2) = castDouble UINT32_MAX + 1 / 2 := by
  have hb : binade (castDouble UINT32_MAX + 1 / 2) = 31 := by
    apply binade_eq <;> norm_num [castDouble, UINT32_MAX]
  apply rnd_eq_self_of_grid (n := 8589934591 * 2 ^ 20)
  unfold ulp
  rw [hb]
  norm_num [castDouble, UINT32_MAX]

theorem roundedProduct_nonneg {p : ℚ} (h0 : 0 ≤ p) : 0 ≤ roundedProduct p := by
  unfold roundedProduct fadd fmul
  apply Int.floor_nonneg.mpr
  apply rnd_nonneg
  have := rnd_nonneg (x := p * castDouble UINT32_MAX)
    (mul_nonneg h0 (by norm_num [castDouble, UINT32_MAX]))
  linarith

theorem roundedProduct_le {p : ℚ} (h0 : 0 ≤ p) (h1 : p ≤ 1) :
    roundedProduct p ≤ (UINT32_MAX : ℤ) := by
  unfold roundedProduct fadd fmul
  have hM : (0 : ℚ) ≤ castDouble UINT32_MAX := by norm_num [castDouble, UINT32_MAX]
  have a0 : 0 ≤ p * castDouble UINT32_MAX := mul_nonneg h0 hM
  have a1 : rnd (p * castDouble UINT32_MAX) ≤ castDouble UINT32_MAX := by
    have := rnd_mono a0 (show p * castDouble UINT32_MAX ≤ castDouble UINT32_MAX by nlinarith)
    rwa [rnd_UINT32_MAX] at this
  have a2 : rnd (rnd (p * castDouble UINT32_MAX) + 1 / 2) ≤ castDouble UINT32_MAX + 1 / 2 := by
    have := rnd_mono (x := rnd (p * castDouble UINT32_MAX) + 1 / 2)
      (y := castDouble UINT32_MAX + 1 / 2) (by have := rnd_nonneg a0; linarith) (by linarith)
    rwa [rnd_UINT32_MAX_add_half] at this
  have a3 : ⌊rnd (rnd (p * castDouble UINT32_MAX) + 1 / 2)⌋ ≤ ⌊castDouble UINT32_MAX + 1 / 2⌋ :=
    Int.floor_mono a2
  have a4 : ⌊castDouble UINT32_MAX + 1 / 2⌋ = (UINT32_MAX : ℤ) := by
    rw [Int.floor_eq_iff]
    norm_num [castDouble, UINT32_MAX]
  rw [a4] at a3
  exact a3

/-- Clamp and conversion of lines 252-257 applied to an integral double. -/
theorem clamp_cast (z : ℤ) :
    castU32 (stdmax 0 (stdmin (z : ℚ) (castDouble UINT32_MAX)))
      = (max 0 (min z (UINT32_MAX : ℤ))).toNat := by
  have hM : castDouble UINT32_MAX = (((UINT32_MAX : ℕ) : ℤ) : ℚ) := by simp [castDouble]
  have hlt : ∀ w : ℤ, 0 ≤ w → w ≤ (UINT32_MAX : ℤ) → u32 w.toNat = w.toNat := by
    intro w h0 h1
    unfold u32
    apply Nat.mod_eq_of_lt
    have : (UINT32_MAX : ℤ) = 4294967295 := by norm_num [UINT32_MAX]
    omega
  have hmin : stdmin (z : ℚ) (castDouble UINT32_MAX) = ((min z (UINT32_MAX : ℤ) : ℤ) : ℚ) := by
    unfold stdmin
    rw [hM]
    split_ifs with h
    · have h' : ((UINT32_MAX : ℕ) : ℤ) < z := by exact_mod_cast h
      rw [min_eq_right h'.le]
    · have h' : ¬ ((UINT32_MAX : ℕ) : ℤ) < z := by exact_mod_cast h
      rw [min_eq_left (not_lt.mp h')]
  have hmax : ∀ w : ℤ, stdmax 0 (w : ℚ) = ((max 0 w : ℤ) : ℚ) := by
    intro w
    unfold stdmax
    split_ifs with h
    · have h' : 0 < w := by exact_mod_cast h
      rw [max_eq_right h'.le]
    · have h' : ¬ 0 < w := by exact_mod_cast h
      rw [max_eq_left (not_lt.mp h')]
      simp
  rw [hmin, hmax]
  unfold castU32
  rw [Int.floor_intCast]
  apply hlt
  · exact le_max_left _ _
  · exact max_le (by positivity) (min_le_right _ _)

theorem up_eq_clamp {p : ℚ} (hp : p ≠ 1) :
    bamdownsamplerandom_up p = (max 0 (min (roundedProduct p) (UINT32_MAX : ℤ))).toNat := by
  unfold bamdownsamplerandom_up
  rw [if_neg hp]
  exact clamp_cast _

theorem upHash_eq_up (p : ℚ) : bamdownsamplerandomHash_up p = bamdownsamplerandom_up p := rfl

/-- C1: for every probability `0 ≤ p ≤ 1` the threshold of both drivers equals the
reference value: `2^32 - 1` when `p = 1`, otherwise `floor(p * UINT32_MAX + 0.5)`,
which lies in `[0, UINT32_MAX]` so that the clamp leaves it unchanged. -/
theorem threshold_eq_reference (p : ℚ) (h0 : 0 ≤ p) (h1 : p ≤ 1) :
    ((bamdownsamplerandom_up p : ℕ) : ℤ) = thresholdRef p
    ∧ ((bamdownsamplerandomHash_up p : ℕ) : ℤ) = thresholdRef p
    ∧ (p = 1 → bamdownsamplerandom_up p = 2 ^ 32 - 1)
    ∧ (p ≠ 1 → 0 ≤ thresholdRef p ∧ thresholdRef p ≤ 2 ^ 32 - 1
        ∧ max 0 (min (thresholdRef p) (2 ^ 32 - 1)) = thresholdRef p) := by
  have key : ((bamdownsamplerandom_up p : ℕ) : ℤ) = thresholdRef p := by
    by_cases hp : p = 1
    · simp [bamdownsamplerandom_up, thresholdRef, hp, UINT32_MAX]
    · rw [up_eq_clamp hp]
      have a := roundedProduct_nonneg h0
      have b := roundedProduct_le h0 h1
      have c : thresholdRef p = roundedProduct p := by
        simp [thresholdRef, hp, roundedProduct, castDouble, UINT32_MAX]
      rw [c, min_eq_left b, max_eq_right a, Int.toNat_of_nonneg a]
  refine ⟨key, by rw [upHash_eq_up]; exact key, ?_, ?_⟩
  · intro hp
    simp [bamdownsamplerandom_up, hp, UINT32_MAX]
  · intro hp
    have a := roundedProduct_nonneg h0
    have b := roundedProduct_le h0 h1
    have c : thresholdRef p = roundedProduct p := by
      simp [thresholdRef, hp, roundedProduct, castDouble, UINT32_MAX]
    have d : ((UINT32_MAX : ℕ) : ℤ) = 2 ^ 32 - 1 := by norm_num [UINT32_MAX]
    rw [c]
    rw [d] at b
    exact ⟨a, b, by rw [min_eq_left b, max_eq_right a]⟩

theorem threshold_eq_reference_witness :
    (0 : ℚ) ≤ 1 / 2 + 1 / 2 ^ 32 ∧ (1 / 2 + 1 / 2 ^ 32 : ℚ) ≤ 1
    ∧ ((bamdownsamplerandom_up (1 / 2 + 1 / 2 ^ 32) : ℕ) : ℤ)
        = thresholdRef (1 / 2 + 1 / 2 ^ 32) :=
  ⟨by norm_num, by norm_num,
    (threshold_eq_reference (1 / 2 + 1 / 2 ^ 32) (by norm_num) (by norm_num)).1⟩

theorem roundedProduct_mono {p q : ℚ} (h0 : 0 ≤ p) (hpq : p ≤ q) :
    roundedProduct p ≤ roundedProduct q := by
  unfold roundedProduct fadd fmul
  have hM : (0 : ℚ) ≤ castDouble UINT32_MAX := by norm_num [castDouble, UINT32_MAX]
  have a0 : 0 ≤ p * castDouble UINT32_MAX := mul_nonneg h0 hM
  have a1 : rnd (p * castDouble UINT32_MAX) ≤ rnd (q * castDouble UINT32_MAX) :=
    rnd_mono a0 (mul_le_mul_of_nonneg_right hpq hM)
  have a2 := rnd_nonneg a0
  exact Int.floor_mono (rnd_mono (by linarith) (by linarith))

theorem up_le_UINT32_MAX (p : ℚ) : bamdownsamplerandom_up p ≤ UINT32_MAX := by
  by_cases hp : p = 1
  · simp [bamdownsamplerandom_up, hp]
  · rw [up_eq_clamp hp]
    have : max 0 (min (roundedProduct p) (UINT32_MAX : ℤ)) ≤ (UINT32_MAX : ℤ) :=
      max_le (by positivity) (min_le_right _ _)
    omega

/-- C2: the threshold is monotonically non-decreasing on `[0,1]`, the case `q = 1`
(which returns `UINT32_MAX` without rounding) included. -/
theorem threshold_monotone (p q : ℚ) (h0 : 0 ≤ p) (hpq : p ≤ q) (h1 : q ≤ 1) :
    bamdownsamplerandom_up p ≤ bamdownsamplerandom_up q
    ∧ bamdownsamplerandomHash_up p ≤ bamdownsamplerandomHash_up q
    ∧ bamdownsamplerandom_up 1 = UINT32_MAX := by
  have key : bamdownsamplerandom_up p ≤ bamdownsamplerandom_up q := by
    by_cases hq : q = 1
    · have : bamdownsamplerandom_up q = UINT32_MAX := by simp [bamdownsamplerandom_up, hq]
      rw [this]
      exact up_le_UINT32_MAX p
    · have hp : p ≠ 1 := by
        intro hp
        exact hq (le_antisymm h1 (hp ▸ hpq))
      rw [up_eq_clamp hp, up_eq_clamp hq]
      apply Int.toNat_le_toNat
      exact max_le_max le_rfl (min_le_min (roundedProduct_mono h0 hpq) le_rfl)
  exact ⟨key, by rw [upHash_eq_up, upHash_eq_up]; exact key, by simp [bamdownsamplerandom_up]⟩

theorem threshold_monotone_witness :
    (0 : ℚ) ≤ 1 / 3 ∧ (1 / 3 : ℚ) ≤ 1 ∧ (1 : ℚ) ≤ 1
    ∧ bamdownsamplerandom_up (1 / 3) ≤ bamdownsamplerandom_up 1 :=
  ⟨by norm_num, by norm_num, le_rfl,
    (threshold_monotone (1 / 3) 1 (by norm_num) (by norm_num) le_rfl).1⟩

/-- C3: a driver throws if and only if `p < 0` or `p > 1`, and does not if and only
if `0 ≤ p ≤ 1`; the exception carries the offending value, and when it is thrown
every unit is still in the decoder and nothing has been written.  Both drivers
behave alike. -/
theorem range_check (dig : DigestAlg) (p : ℚ) (CHCBD : List OutputBufferEntry)
    (BAD : List BamAlignment) (rand : Nat → Nat) :
    (((bamdownsamplerandom ⟨some p⟩ CHCBD rand).exc
          = some ⟨"Value of p must be in [0,1] but is ", p⟩
        ∧ (bamdownsamplerandom ⟨some p⟩ CHCBD rand).undelivered = CHCBD
        ∧ (bamdownsamplerandom ⟨some p⟩ CHCBD rand).sel.Pout = [])
      ↔ (p < 0 ∨ 1 < p))
    ∧ (((bamdownsamplerandomHash dig ⟨some p⟩ BAD rand).exc
          = some ⟨"Value of p must be in [0,1] but is ", p⟩
        ∧ (bamdownsamplerandomHash dig ⟨some p⟩ BAD rand).undelivered = BAD
        ∧ (bamdownsamplerandomHash dig ⟨some p⟩ BAD rand).sel.Pout = [])
      ↔ (p < 0 ∨ 1 < p))
    ∧ ((bamdownsamplerandom ⟨some p⟩ CHCBD rand).exc = none ↔ (0 ≤ p ∧ p ≤ 1))
    ∧ ((bamdownsamplerandomHash dig ⟨some p⟩ BAD rand).exc = none ↔ (0 ≤ p ∧ p ≤ 1)) := by
  by_cases h : p < 0 ∨ p > 1
  · have hn : ¬ (0 ≤ p ∧ p ≤ 1) := by
      rintro ⟨h0, h1⟩
      rcases h with h | h <;> linarith
    have h2 : p < 0 ∨ 1 < p := h
    simp [bamdownsamplerandom, bamdownsamplerandomHash, h, h2, hn, SelState.init]
  · have hy : 0 ≤ p ∧ p ≤ 1 := by
      constructor
      · by_contra h0
        exact h (Or.inl (not_le.mp h0))
      · by_contra h1
        exact h (Or.inr (not_le.mp h1))
    have h2 : ¬ (p < 0 ∨ 1 < p) := h
    simp [bamdownsamplerandom, bamdownsamplerandomHash, h, h2, hy]

/-! ## The selection loops -/

theorem u64_lt (n : Nat) : u64 n < 2 ^ 64 := Nat.mod_lt _ (by norm_num)

theorem u32_le (n : Nat) : u32 n ≤ UINT32_MAX := by
  have : u32 n < 2 ^ 32 := Nat.mod_lt _ (by norm_num)
  unfold UINT32_MAX
  omega

theorem report_Pout {β : Type} (c : Nat) (s : SelState β) : (report c s).Pout = s.Pout := by
  unfold report; split_ifs <;> rfl

theorem report_cnt {β : Type} (c : Nat) (s : SelState β) : (report c s).cnt = s.cnt := by
  unfold report; split_ifs <;> rfl

theorem report_ocnt {β : Type} (c : Nat) (s : SelState β) : (report c s).ocnt = s.ocnt := by
  unfold report; split_ifs <;> rfl

theorem report_cerr {β : Type} (c : Nat) (s : SelState β) :
    (report c s).cerr
      = s.cerr ++ (if c >>> 20 ≠ s.cnt >>> 20 then [LogLine.progress (s.cnt >>> 20) s.ocnt]
          else []) := by
  unfold report verbshift; split_ifs <;> simp

theorem body_Pout (up rv : Nat) (ob : OutputBufferEntry) (s : SelState BamBlock) :
    (runSelectionBody up rv ob s).Pout
      = s.Pout ++ (if rv ≤ up then unitBlocks ob else []) := by
  unfold runSelectionBody unitBlocks
  simp only [report_Pout]
  rcases ob with ⟨Da, sa, Db, sb, f1, f2, f3, f4⟩
  cases f1 <;> cases f2 <;> cases f3 <;> cases f4 <;> by_cases h : rv ≤ up <;> simp [h]

theorem body_cnt (up rv : Nat) (ob : OutputBufferEntry) (s : SelState BamBlock)
    (hs : s.cnt < 2 ^ 64) :
    (runSelectionBody up rv ob s).cnt = u64 (s.cnt + unitRecords ob) := by
  have h0 : u64 s.cnt = s.cnt := Nat.mod_eq_of_lt hs
  unfold runSelectionBody unitRecords
  simp only [report_cnt]
  rcases ob with ⟨Da, sa, Db, sb, f1, f2, f3, f4⟩
  cases f1 <;> cases f2 <;> cases f3 <;> cases f4 <;> by_cases h : rv ≤ up <;> simp [h, h0]

theorem body_ocnt (up rv : Nat) (ob : OutputBufferEntry) (s : SelState BamBlock)
    (hs : s.ocnt < 2 ^ 64) :
    (runSelectionBody up rv ob s).ocnt
      = u64 (s.ocnt + (if rv ≤ up then unitRecords ob else 0)) := by
  have h0 : u64 s.ocnt = s.ocnt := Nat.mod_eq_of_lt hs
  unfold runSelectionBody unitRecords
  simp only [report_ocnt]
  rcases ob with ⟨Da, sa, Db, sb, f1, f2, f3, f4⟩
  cases f1 <;> cases f2 <;> cases f3 <;> cases f4 <;> by_cases h : rv ≤ up <;> simp [h, h0]

theorem body_cerr (up rv : Nat) (ob : OutputBufferEntry) (s : SelState BamBlock) :
    (runSelectionBody up rv ob s).cerr
      = s.cerr ++ (if s.cnt >>> 20 ≠ (runSelectionBody up rv ob s).cnt >>> 20
          then [LogLine.progress ((runSelectionBody up rv ob s).cnt >>> 20)
                  (runSelectionBody up rv ob s).ocnt]
          else []) := by
  unfold runSelectionBody
  simp only [report_cerr, report_cnt, report_ocnt]
  rcases ob with ⟨Da, sa, Db, sb, f1, f2, f3, f4⟩
  cases f1 <;> cases f2 <;> cases f3 <;> cases f4 <;> by_cases h : rv ≤ up <;> simp [h]

theorem unitRecords_eq_length (ob : OutputBufferEntry) :
    unitRecords ob = (unitBlocks ob).length := by
  unfold unitRecords unitBlocks
  split_ifs <;> rfl

theorem unitRecords_le_two (ob : OutputBufferEntry) : unitRecords ob ≤ 2 := by
  unfold unitRecords
  split_ifs <;> omega

theorem u64_add_u64 (a b : Nat) : u64 (u64 a + b) = u64 (a + b) := by
  unfold u64
  omega

theorem loop_Pout (up : Nat) (rand : Nat → Nat) (l : List OutputBufferEntry) :
    ∀ (i : Nat) (s : SelState BamBlock),
      (runSelectionLoop up rand l i s).Pout = s.Pout ++ keptBlocks up rand l i := by
  induction l with
  | nil => intro i s; simp [runSelectionLoop, keptBlocks]
  | cons ob rest ih =>
    intro i s
    simp only [runSelectionLoop, keptBlocks]
    rw [ih, body_Pout, List.append_assoc]

theorem body_cnt_lt (up rv : Nat) (ob : OutputBufferEntry) (s : SelState BamBlock)
    (hs : s.cnt < 2 ^ 64) : (runSelectionBody up rv ob s).cnt < 2 ^ 64 := by
  rw [body_cnt up rv ob s hs]; exact u64_lt _

theorem body_ocnt_lt (up rv : Nat) (ob : OutputBufferEntry) (s : SelState BamBlock)
    (hs : s.ocnt < 2 ^ 64) : (runSelectionBody up rv ob s).ocnt < 2 ^ 64 := by
  rw [body_ocnt up rv ob s hs]; exact u64_lt _

theorem loop_cnt (up : Nat) (rand : Nat → Nat) (l : List OutputBufferEntry) :
    ∀ (i : Nat) (s : SelState BamBlock), s.cnt < 2 ^ 64 →
      (runSelectionLoop up rand l i s).cnt = u64 (s.cnt + streamRecords l) := by
  induction l with
  | nil =>
    intro i s hs
    have h0 : u64 s.cnt = s.cnt := Nat.mod_eq_of_lt hs
    simp [runSelectionLoop, streamRecords, h0]
  | cons ob rest ih =>
    intro i s hs
    simp only [runSelectionLoop]
    rw [ih _ _ (body_cnt_lt up _ ob s hs), body_cnt up _ ob s hs, u64_add_u64]
    simp [streamRecords, Nat.add_assoc]

theorem loop_ocnt (up : Nat) (rand : Nat → Nat) (l : List OutputBufferEntry) :
    ∀ (i : Nat) (s : SelState BamBlock), s.ocnt < 2 ^ 64 →
      (runSelectionLoop up rand l i s).ocnt = u64 (s.ocnt + (keptBlocks up rand l i).length) := by
  induction l with
  | nil =>
    intro i s hs
    have h0 : u64 s.ocnt = s.ocnt := Nat.mod_eq_of_lt hs
    simp [runSelectionLoop, keptBlocks, h0]
  | cons ob rest ih =>
    intro i s hs
    simp only [runSelectionLoop, keptBlocks]
    rw [ih _ _ (body_ocnt_lt up _ ob s hs), body_ocnt up _ ob s hs, u64_add_u64,
      List.length_append, unitRecords_eq_length]
    congr 1
    split_ifs <;> simp [Nat.add_assoc]

theorem progress_step (N d : Nat) (hd : d ≤ 2) :
    N >>> 20 + (if u64 N >>> 20 ≠ u64 (N + d) >>> 20 then 1 else 0) = (N + d) >>> 20 := by
  simp only [Nat.shiftRight_eq_div_pow, u64]
  split_ifs with h <;> omega

theorem progressCount_append (a b : List LogLine) :
    progressCount (a ++ b) = progressCount a + progressCount b := by
  simp [progressCount, List.countP_append]

theorem loop_progress (up : Nat) (rand : Nat → Nat) (l : List OutputBufferEntry) :
    ∀ (i : Nat) (s : SelState BamBlock) (N : Nat), s.cnt = u64 N →
      progressCount s.cerr = N >>> 20 →
      progressCount (runSelectionLoop up rand l i s).cerr = (N + streamRecords l) >>> 20 := by
  induction l with
  | nil =>
    intro i s N _ h
    simpa [runSelectionLoop, streamRecords] using h
  | cons ob rest ih =>
    intro i s N hc hp
    simp only [runSelectionLoop]
    have hlt : s.cnt < 2 ^ 64 := hc ▸ u64_lt N
    have hc' : (runSelectionBody up (u32 (rand i)) ob s).cnt = u64 (N + unitRecords ob) := by
      rw [body_cnt up _ ob s hlt, hc, u64_add_u64]
    have hp' : progressCount (runSelectionBody up (u32 (rand i)) ob s).cerr
        = (N + unitRecords ob) >>> 20 := by
      rw [body_cerr, progressCount_append, hp, hc', hc,
        ← progress_step N (unitRecords ob) (unitRecords_le_two ob)]
      congr 1
      split_ifs <;> simp [progressCount]
    rw [ih _ _ _ hc' hp']
    simp [streamRecords, Nat.add_assoc]

theorem foldDigest_lt (D : List Nat) (dlen : Nat) : foldDigest D dlen < 2 ^ 32 := by
  unfold foldDigest
  have h : ∀ (l : List Nat) (acc : Nat), acc < 2 ^ 32 →
      l.foldl (fun rv i => rv ^^^ u32 (u8 (D.getD i 0) <<< (8 * (i &&& 3)))) acc < 2 ^ 32 := by
    intro l
    induction l with
    | nil => intro acc h; simpa using h
    | cons a t ih =>
      intro acc h
      simp only [List.foldl_cons]
      apply ih
      exact Nat.xor_lt_two_pow h (Nat.mod_lt _ (by norm_num))
  exact h _ _ (by norm_num)

theorem hashValue_le (dig : DigestAlg) (seed : Nat) (qname : List Nat) :
    hashValue dig seed qname ≤ UINT32_MAX := by
  have := foldDigest_lt (dig.digest seed qname) dig.getDigestLength
  unfold hashValue UINT32_MAX
  omega

theorem hbody_Pout (dig : DigestAlg) (up seed : Nat) (algn : BamAlignment)
    (s : SelState BamAlignment) :
    (runSelectionHashBody dig up seed algn s).Pout
      = s.Pout ++ (if hashValue dig seed algn.name ≤ up then [algn] else []) := by
  unfold runSelectionHashBody
  simp only [report_Pout]
  split_ifs <;> simp

theorem hbody_cnt (dig : DigestAlg) (up seed : Nat) (algn : BamAlignment)
    (s : SelState BamAlignment) :
    (runSelectionHashBody dig up seed algn s).cnt = u64 (s.cnt + 1) := by
  unfold runSelectionHashBody
  simp only [report_cnt]
  split_ifs <;> rfl

theorem hbody_ocnt (dig : DigestAlg) (up seed : Nat) (algn : BamAlignment)
    (s : SelState BamAlignment) (hs : s.ocnt < 2 ^ 64) :
    (runSelectionHashBody dig up seed algn s).ocnt
      = u64 (s.ocnt + (if hashValue dig seed algn.name ≤ up then 1 else 0)) := by
  have h0 : u64 s.ocnt = s.ocnt := Nat.mod_eq_of_lt hs
  unfold runSelectionHashBody
  simp only [report_ocnt]
  split_ifs <;> simp [h0]

theorem hbody_cerr (dig : DigestAlg) (up seed : Nat) (algn : BamAlignment)
    (s : SelState BamAlignment) :
    (runSelectionHashBody dig up seed algn s).cerr
      = s.cerr ++ (if s.cnt >>> 20 ≠ (runSelectionHashBody dig up seed algn s).cnt >>> 20
          then [LogLine.progress ((runSelectionHashBody dig up seed algn s).cnt >>> 20)
                  (runSelectionHashBody dig up seed algn s).ocnt]
          else []) := by
  unfold runSelectionHashBody
  simp only [report_cerr, report_cnt, report_ocnt]
  by_cases h : hashValue dig seed algn.name ≤ up <;> simp [h]

theorem hloop_Pout (dig : DigestAlg) (up seed : Nat) (l : List BamAlignment) :
    ∀ s : SelState BamAlignment,
      (runSelectionHashLoop dig up seed l s).Pout
        = s.Pout ++ l.filter (fun a => decide (hashValue dig seed a.name ≤ up)) := by
  induction l with
  | nil => intro s; simp [runSelectionHashLoop]
  | cons a rest ih =>
    intro s
    simp only [runSelectionHashLoop]
    rw [ih, hbody_Pout, List.append_assoc]
    by_cases h : hashValue dig seed a.name ≤ up <;> simp [List.filter_cons, h]

theorem hloop_cnt (dig : DigestAlg) (up seed : Nat) (l : List BamAlignment) :
    ∀ s : SelState BamAlignment, s.cnt < 2 ^ 64 →
      (runSelectionHashLoop dig up seed l s).cnt = u64 (s.cnt + l.length) := by
  induction l with
  | nil =>
    intro s hs
    have h0 : u64 s.cnt = s.cnt := Nat.mod_eq_of_lt hs
    simp [runSelectionHashLoop, h0]
  | cons a rest ih =>
    intro s hs
    simp only [runSelectionHashLoop]
    rw [ih _ (by rw [hbody_cnt]; exact u64_lt _), hbody_cnt, u64_add_u64]
    simp only [List.length_cons]
    congr 1
    omega

theorem hloop_ocnt (dig : DigestAlg) (up seed : Nat) (l : List BamAlignment) :
    ∀ s : SelState BamAlignment, s.ocnt < 2 ^ 64 →
      (runSelectionHashLoop dig up seed l s).ocnt
        = u64 (s.ocnt
            + (l.filter (fun a => decide (hashValue dig seed a.name ≤ up))).length) := by
  induction l with
  | nil =>
    intro s hs
    have h0 : u64 s.ocnt = s.ocnt := Nat.mod_eq_of_lt hs
    simp [runSelectionHashLoop, h0]
  | cons a rest ih =>
    intro s hs
    simp only [runSelectionHashLoop]
    rw [ih _ (by rw [hbody_ocnt _ _ _ _ _ hs]; exact u64_lt _), hbody_ocnt _ _ _ _ _ hs,
      u64_add_u64]
    congr 1
    by_cases h : hashValue dig seed a.name ≤ up
    · simp [List.filter_cons, h]; omega
    · simp [List.filter_cons, h]

theorem hloop_progress (dig : DigestAlg) (up seed : Nat) (l : List BamAlignment) :
    ∀ (s : SelState BamAlignment) (N : Nat), s.cnt = u64 N →
      progressCount s.cerr = N >>> 20 →
      progressCount (runSelectionHashLoop dig up seed l s).cerr = (N + l.length) >>> 20 := by
  induction l with
  | nil =>
    intro s N _ h
    simpa [runSelectionHashLoop] using h
  | cons a rest ih =>
    intro s N hc hp
    simp only [runSelectionHashLoop]
    have hc' : (runSelectionHashBody dig up seed a s).cnt = u64 (N + 1) := by
      rw [hbody_cnt, hc, u64_add_u64]
    have hp' : progressCount (runSelectionHashBody dig up seed a s).cerr = (N + 1) >>> 20 := by
      rw [hbody_cerr, progressCount_append, hp, hc', hc,
        ← progress_step N 1 (by norm_num)]
      congr 1
      split_ifs <;> simp [progressCount]
    rw [ih _ _ hc' hp']
    simp [Nat.add_assoc, Nat.add_comm 1]

theorem rnd_half : rnd (1 / 2) = 1 / 2 := by
  have hb : binade (1 / 2 : ℚ) = -1 := by
    apply binade_eq <;> norm_num
  apply rnd_eq_self_of_grid (n := 2 ^ 52)
  unfold ulp
  rw [hb]
  norm_num

theorem up_zero : bamdownsamplerandom_up 0 = 0 := by
  rw [up_eq_clamp (by norm_num)]
  have : roundedProduct 0 = 0 := by
    unfold roundedProduct fadd fmul
    rw [zero_mul, rnd_zero, zero_add, rnd_half]
    norm_num
  rw [this]
  simp

theorem up_one : bamdownsamplerandom_up 1 = UINT32_MAX := by
  simp [bamdownsamplerandom_up]

theorem keptBlocks_max (rand : Nat → Nat) (l : List OutputBufferEntry) :
    ∀ i, keptBlocks UINT32_MAX rand l i = l.flatMap unitBlocks := by
  induction l with
  | nil => intro i; rfl
  | cons ob rest ih =>
    intro i
    simp [keptBlocks, ih, u32_le]

theorem length_join_unitBlocks (l : List OutputBufferEntry) :
    (l.flatMap unitBlocks).length = streamRecords l := by
  induction l with
  | nil => rfl
  | cons ob rest ih =>
    simp [streamRecords, unitRecords_eq_length] at ih ⊢
    omega

theorem filter_hash_max (dig : DigestAlg) (seed : Nat) (l : List BamAlignment) :
    l.filter (fun a => decide (hashValue dig seed a.name ≤ UINT32_MAX)) = l := by
  apply List.filter_eq_self.mpr
  intro a _
  simp [hashValue_le]

/-- C4: with `p = 1` every block of every unit is written, in the original order
(first block of a pair before its second), and the kept count equals the processed
count; likewise every record in hash mode, whatever the seed and the names. -/
theorem keep_everything (dig : DigestAlg) (CHCBD : List OutputBufferEntry)
    (BAD : List BamAlignment) (rand : Nat → Nat) :
    (bamdownsamplerandom ⟨some 1⟩ CHCBD rand).exc = none
    ∧ (bamdownsamplerandom ⟨some 1⟩ CHCBD rand).sel.Pout = CHCBD.flatMap unitBlocks
    ∧ (bamdownsamplerandom ⟨some 1⟩ CHCBD rand).sel.ocnt
        = (bamdownsamplerandom ⟨some 1⟩ CHCBD rand).sel.cnt
    ∧ (bamdownsamplerandom ⟨some 1⟩ CHCBD rand).sel.cnt = u64 (streamRecords CHCBD)
    ∧ (bamdownsamplerandomHash dig ⟨some 1⟩ BAD rand).exc = none
    ∧ (bamdownsamplerandomHash dig ⟨some 1⟩ BAD rand).sel.Pout = BAD
    ∧ (bamdownsamplerandomHash dig ⟨some 1⟩ BAD rand).sel.ocnt
        = (bamdownsamplerandomHash dig ⟨some 1⟩ BAD rand).sel.cnt
    ∧ (bamdownsamplerandomHash dig ⟨some 1⟩ BAD rand).sel.cnt = u64 BAD.length
    ∧ (∀ seed : Nat, (runSelectionHash dig BAD UINT32_MAX seed).Pout = BAD) := by
  have hp : ¬ ((1 : ℚ) < 0 ∨ (1 : ℚ) > 1) := by norm_num
  have h0 : (SelState.init BamBlock).cnt < 2 ^ 64 := by simp [SelState.init]
  have h1 : (SelState.init BamBlock).ocnt < 2 ^ 64 := by simp [SelState.init]
  have h2 : (SelState.init BamAlignment).cnt < 2 ^ 64 := by simp [SelState.init]
  have h3 : (SelState.init BamAlignment).ocnt < 2 ^ 64 := by simp [SelState.init]
  simp only [bamdownsamplerandom, bamdownsamplerandomHash, Option.getD_some, hp, if_false,
    runSelection, runSelectionHash, upHash_eq_up, up_one]
  refine ⟨trivial, ?_, ?_, ?_, trivial, ?_, ?_, ?_, ?_⟩
  · rw [loop_Pout, keptBlocks_max]; simp [SelState.init]
  · rw [loop_ocnt _ _ _ _ _ h1, loop_cnt _ _ _ _ _ h0, keptBlocks_max, length_join_unitBlocks]
    simp [SelState.init]
  · rw [loop_cnt _ _ _ _ _ h0]; simp [SelState.init]
  · rw [hloop_Pout, filter_hash_max]; simp [SelState.init]
  · rw [hloop_ocnt _ _ _ _ _ h3, hloop_cnt _ _ _ _ _ h2, filter_hash_max]
    simp [SelState.init]
  · rw [hloop_cnt _ _ _ _ _ h2]; simp [SelState.init]
  · intro seed
    rw [hloop_Pout, filter_hash_max]; simp [SelState.init]

theorem keptBlocks_zero_of_nonzero (rand : Nat → Nat) (l : List OutputBufferEntry) :
    ∀ i, (∀ j, j < l.length → u32 (rand (i + j)) ≠ 0) → keptBlocks 0 rand l i = [] := by
  induction l with
  | nil => intro i _; rfl
  | cons ob rest ih =>
    intro i h
    have h0 : u32 (rand i) ≠ 0 := by simpa using h 0 (by simp)
    have hrest : keptBlocks 0 rand rest (i + 1) = [] := by
      apply ih
      intro j hj
      have := h (j + 1) (by simpa using hj)
      rwa [show i + (j + 1) = i + 1 + j by omega] at this
    simp [keptBlocks, h0, hrest]

/-- C5 (as stated) fails: with `p = 0` a single unit whose draw is `0` is written. -/
theorem keep_nothing_counterexample :
    (bamdownsamplerandom ⟨some 0⟩ [⟨[7], 1, [], 0, false, true, false, false⟩]
        (fun _ => 0)).sel.Pout = [⟨[7], 1⟩]
    ∧ (bamdownsamplerandom ⟨some 0⟩ [⟨[7], 1, [], 0, false, true, false, false⟩]
        (fun _ => 0)).sel.ocnt = 1 := by
  have hp : ¬ ((0 : ℚ) < 0 ∨ (0 : ℚ) > 1) := by norm_num
  simp only [bamdownsamplerandom, Option.getD_some, hp, if_false, runSelection, up_zero]
  constructor
  · rw [loop_Pout]; simp [SelState.init, keptBlocks, unitBlocks, u32]
  · rw [loop_ocnt _ _ _ _ _ (by simp [SelState.init])]
    simp [SelState.init, keptBlocks, unitBlocks, u32, u64]

/-- C5 (amended): with `p = 0` the threshold is `0` and exactly the units whose draw
is `0` are written; when no draw is `0` nothing is written and the kept count is
zero.  In every case the processed count is the number of input records. -/
theorem keep_nothing_unless_zero_draw (CHCBD : List OutputBufferEntry) (rand : Nat → Nat) :
    (bamdownsamplerandom ⟨some 0⟩ CHCBD rand).exc = none
    ∧ (bamdownsamplerandom ⟨some 0⟩ CHCBD rand).sel.Pout = keptBlocks 0 rand CHCBD 0
    ∧ (bamdownsamplerandom ⟨some 0⟩ CHCBD rand).sel.cnt = u64 (streamRecords CHCBD)
    ∧ ((∀ j, j < CHCBD.length → u32 (rand j) ≠ 0) →
        (bamdownsamplerandom ⟨some 0⟩ CHCBD rand).sel.Pout = []
        ∧ (bamdownsamplerandom ⟨some 0⟩ CHCBD rand).sel.ocnt = 0) := by
  have hp : ¬ ((0 : ℚ) < 0 ∨ (0 : ℚ) > 1) := by norm_num
  have h0 : (SelState.init BamBlock).cnt < 2 ^ 64 := by simp [SelState.init]
  have h1 : (SelState.init BamBlock).ocnt < 2 ^ 64 := by simp [SelState.init]
  simp only [bamdownsamplerandom, Option.getD_some, hp, if_false, runSelection, up_zero]
  refine ⟨trivial, ?_, ?_, ?_⟩
  · rw [loop_Pout]; simp [SelState.init]
  · rw [loop_cnt _ _ _ _ _ h0]; simp [SelState.init]
  · intro h
    have hk : keptBlocks 0 rand CHCBD 0 = [] :=
      keptBlocks_zero_of_nonzero rand CHCBD 0 (by simpa using h)
    constructor
    · rw [loop_Pout, hk]; simp [SelState.init]
    · rw [loop_ocnt _ _ _ _ _ h1, hk]; simp [SelState.init, u64]

theorem keep_nothing_unless_zero_draw_witness :
    (∀ j, j < [(⟨[7], 1, [8], 2, true, false, false, false⟩ : OutputBufferEntry),
        ⟨[9], 1, [], 0, false, false, true, false⟩].length → u32 ((fun i => i + 5) j) ≠ 0)
    ∧ (bamdownsamplerandom ⟨some 0⟩ [⟨[7], 1, [8], 2, true, false, false, false⟩,
        ⟨[9], 1, [], 0, false, false, true, false⟩] (fun i => i + 5)).sel.Pout = [] := by
  have hw : ∀ j, j < [(⟨[7], 1, [8], 2, true, false, false, false⟩ : OutputBufferEntry),
        ⟨[9], 1, [], 0, false, false, true, false⟩].length → u32 ((fun i => i + 5) j) ≠ 0 := by
    intro j hj
    have hj2 : j < 2 := by simpa using hj
    simp only [u32]
    omega
  exact ⟨hw, ((keep_nothing_unless_zero_draw _ _).2.2.2 hw).1⟩

/-- C6: in random mode the output is the concatenation, unit by unit, of either all
blocks of the unit or none, the decision being the one draw made for the unit; a
paired unit therefore contributes its first block immediately followed by its second
block, or nothing. -/
theorem pair_atomicity (up : Nat) (rand : Nat → Nat) (CHCBD : List OutputBufferEntry)
    (i : Nat) (rv : Nat) (ob : OutputBufferEntry) (s : SelState BamBlock)
    (hpair : ob.fpair = true) :
    (runSelection CHCBD up rand i).Pout = keptBlocks up rand CHCBD i
    ∧ unitBlocks ob = [⟨ob.Da, ob.blocksizea⟩, ⟨ob.Db, ob.blocksizeb⟩]
    ∧ ((runSelectionBody up rv ob s).Pout
          = s.Pout ++ [⟨ob.Da, ob.blocksizea⟩, ⟨ob.Db, ob.blocksizeb⟩]
        ∨ (runSelectionBody up rv ob s).Pout = s.Pout) := by
  have hu : unitBlocks ob = [⟨ob.Da, ob.blocksizea⟩, ⟨ob.Db, ob.blocksizeb⟩] := by
    simp [unitBlocks, hpair]
  refine ⟨?_, hu, ?_⟩
  · simp only [runSelection]
    rw [loop_Pout]; simp [SelState.init]
  · rw [body_Pout, hu]
    by_cases h : rv ≤ up
    · left; simp [h]
    · right; simp [h]

theorem pair_atomicity_witness :
    (⟨[7], 1, [8], 2, true, false, false, false⟩ : OutputBufferEntry).fpair = true
    ∧ (runSelection [⟨[7], 1, [8], 2, true, false, false, false⟩] 5 (fun _ => 3) 0).Pout
        = keptBlocks 5 (fun _ => 3) [⟨[7], 1, [8], 2, true, false, false, false⟩] 0 :=
  ⟨rfl, (pair_atomicity 5 (fun _ => 3) [⟨[7], 1, [8], 2, true, false, false, false⟩] 0 3
    ⟨[7], 1, [8], 2, true, false, false, false⟩ (SelState.init BamBlock) rfl).1⟩

theorem runSelectionHash_Pout (dig : DigestAlg) (up seed : Nat) (l : List BamAlignment) :
    (runSelectionHash dig l up seed).Pout = l.filter (fun a => hashKeep dig seed up a.name) := by
  simp only [runSelectionHash]
  rw [hloop_Pout]
  simp [SelState.init, hashKeep]

/-- C7: in hash mode the decision for a record is a function of the seed, the
threshold and the record name only: the output of a run is the input filtered by
that function, so records with equal names are decided alike, a record is written
wherever it stands, and the run on a permuted input writes the corresponding
permutation of the same records. -/
theorem hash_order_independence (dig : DigestAlg) (up seed : Nat)
    (l1 l2 : List BamAlignment) (hperm : l1.Perm l2) :
    (runSelectionHash dig l1 up seed).Pout = l1.filter (fun a => hashKeep dig seed up a.name)
    ∧ (runSelectionHash dig l2 up seed).Pout = l2.filter (fun a => hashKeep dig seed up a.name)
    ∧ ((runSelectionHash dig l1 up seed).Pout).Perm ((runSelectionHash dig l2 up seed).Pout)
    ∧ (∀ a : BamAlignment, a ∈ (runSelectionHash dig l2 up seed).Pout
        ↔ a ∈ (runSelectionHash dig l1 up seed).Pout)
    ∧ (∀ a : BamAlignment, a ∈ (runSelectionHash dig l1 up seed).Pout
        ↔ (a ∈ l1 ∧ hashKeep dig seed up a.name = true))
    ∧ (∀ a b : BamAlignment, a.name = b.name →
        hashKeep dig seed up a.name = hashKeep dig seed up b.name)
    ∧ (∀ (pre : List BamAlignment) (a : BamAlignment) (s : SelState BamAlignment),
        (runSelectionHashBody dig up seed a
            (runSelectionHashLoop dig up seed pre s)).Pout
          = (runSelectionHashLoop dig up seed pre s).Pout
              ++ (if hashKeep dig seed up a.name then [a] else [])) := by
  have hP := hperm.filter (fun a => hashKeep dig seed up a.name)
  rw [runSelectionHash_Pout, runSelectionHash_Pout]
  refine ⟨rfl, rfl, hP, ?_, ?_, ?_, ?_⟩
  · intro a
    exact hP.symm.mem_iff
  · intro a
    simp [List.mem_filter]
  · intro a b h
    rw [h]
  · intro pre a s
    rw [hbody_Pout]
    simp [hashKeep]

theorem hash_order_independence_witness :
    ([(⟨[65], 3, [1]⟩ : BamAlignment), ⟨[66], 3, [2]⟩]).Perm [⟨[66], 3, [2]⟩, ⟨[65], 3, [1]⟩]
    ∧ ((runSelectionHash ⟨4, fun seed msg => [seed, msg.length, 0, 0], fun _ _ => rfl⟩
          [⟨[65], 3, [1]⟩, ⟨[66], 3, [2]⟩] 70 1).Pout).Perm
        ((runSelectionHash ⟨4, fun seed msg => [seed, msg.length, 0, 0], fun _ _ => rfl⟩
          [⟨[66], 3, [2]⟩, ⟨[65], 3, [1]⟩] 70 1).Pout) :=
  ⟨List.Perm.swap _ _ _,
    (hash_order_independence ⟨4, fun seed msg => [seed, msg.length, 0, 0], fun _ _ => rfl⟩ 70 1
      [⟨[65], 3, [1]⟩, ⟨[66], 3, [2]⟩] [⟨[66], 3, [2]⟩, ⟨[65], 3, [1]⟩]
      (List.Perm.swap _ _ _)).2.2.1⟩

theorem streamRecords_replicate (n : Nat) (ob : OutputBufferEntry) :
    streamRecords (List.replicate n ob) = n * unitRecords ob := by
  simp [streamRecords]

theorem init_cnt (β : Type) : (SelState.init β).cnt = u64 0 := rfl

theorem init_progress (β : Type) : progressCount (SelState.init β).cerr = 0 >>> 20 := rfl

/-- C8: after the loop has processed any list of units (any prefix of the stream) the
number of progress lines is the number of records processed, shifted right by 20,
a pair counting 2 and every other unit or hash-mode record 1; the counter `cnt`
holds that number (as a 64-bit value).  After `2^20` single records there is exactly
one progress line, and after `2^21 - 1` still exactly one. -/
theorem progress_lines (dig : DigestAlg) (up seed i : Nat) (rand : Nat → Nat)
    (CHCBD : List OutputBufferEntry) (BAD : List BamAlignment)
    (Da Db : List Nat) (sa sb : Nat) (algn : BamAlignment) :
    progressCount (runSelectionLoop up rand CHCBD i (SelState.init BamBlock)).cerr
        = streamRecords CHCBD >>> 20
    ∧ (runSelectionLoop up rand CHCBD i (SelState.init BamBlock)).cnt
        = u64 (streamRecords CHCBD)
    ∧ progressCount (runSelection CHCBD up rand i).cerr = streamRecords CHCBD >>> 20
    ∧ progressCount (runSelectionHashLoop dig up seed BAD (SelState.init BamAlignment)).cerr
        = BAD.length >>> 20
    ∧ (runSelectionHashLoop dig up seed BAD (SelState.init BamAlignment)).cnt
        = u64 BAD.length
    ∧ progressCount (runSelectionHash dig BAD up seed).cerr = BAD.length >>> 20
    ∧ progressCount (runSelectionLoop up rand
        (List.replicate (2 ^ 20) ⟨Da, sa, Db, sb, false, true, false, false⟩) i
        (SelState.init BamBlock)).cerr = 1
    ∧ progressCount (runSelectionLoop up rand
        (List.replicate (2 ^ 21 - 1) ⟨Da, sa, Db, sb, false, true, false, false⟩) i
        (SelState.init BamBlock)).cerr = 1
    ∧ progressCount (runSelectionHashLoop dig up seed (List.replicate (2 ^ 20) algn)
        (SelState.init BamAlignment)).cerr = 1
    ∧ progressCount (runSelectionHashLoop dig up seed (List.replicate (2 ^ 21 - 1) algn)
        (SelState.init BamAlignment)).cerr = 1
    ∧ (streamRecords CHCBD < 2 ^ 64 →
        progressCount (runSelectionLoop up rand CHCBD i (SelState.init BamBlock)).cerr
          = (runSelectionLoop up rand CHCBD i (SelState.init BamBlock)).cnt >>> 20)
    ∧ (BAD.length < 2 ^ 64 →
        progressCount (runSelectionHashLoop dig up seed BAD (SelState.init BamAlignment)).cerr
          = (runSelectionHashLoop dig up seed BAD (SelState.init BamAlignment)).cnt >>> 20) := by
  have hr : ∀ l, progressCount (runSelectionLoop up rand l i (SelState.init BamBlock)).cerr
      = streamRecords l >>> 20 := by
    intro l
    have := loop_progress up rand l i (SelState.init BamBlock) 0 (init_cnt _) (init_progress _)
    simpa using this
  have hh : ∀ l, progressCount
      (runSelectionHashLoop dig up seed l (SelState.init BamAlignment)).cerr
      = l.length >>> 20 := by
    intro l
    have := hloop_progress dig up seed l (SelState.init BamAlignment) 0 (init_cnt _)
      (init_progress _)
    simpa using this
  have hs : unitRecords ⟨Da, sa, Db, sb, false, true, false, false⟩ = 1 := by
    simp [unitRecords]
  refine ⟨hr _, ?_, ?_, hh _, ?_, ?_, ?_, ?_, ?_, ?_, ?_, ?_⟩
  · rw [loop_cnt _ _ _ _ _ (by simp [SelState.init])]; simp [SelState.init]
  · simp only [runSelection]
    rw [progressCount_append, hr]
    simp [progressCount]
  · rw [hloop_cnt _ _ _ _ _ (by simp [SelState.init])]; simp [SelState.init]
  · simp only [runSelectionHash]
    rw [progressCount_append, hh]
    simp [progressCount]
  · rw [hr, streamRecords_replicate, hs]; norm_num [Nat.shiftRight_eq_div_pow]
  · rw [hr, streamRecords_replicate, hs]; norm_num [Nat.shiftRight_eq_div_pow]
  · rw [hh, List.length_replicate]; norm_num [Nat.shiftRight_eq_div_pow]
  · rw [hh, List.length_replicate]; norm_num [Nat.shiftRight_eq_div_pow]
  · intro hlt
    have hu : u64 (streamRecords CHCBD) = streamRecords CHCBD := Nat.mod_eq_of_lt hlt
    rw [hr, loop_cnt _ _ _ _ _ (by simp [SelState.init])]
    simp [SelState.init, hu]
  · intro hlt
    have hu : u64 BAD.length = BAD.length := Nat.mod_eq_of_lt hlt
    rw [hh, hloop_cnt _ _ _ _ _ (by simp [SelState.init])]
    simp [SelState.init, hu]

theorem progress_lines_witness :
    streamRecords [⟨[7], 1, [8], 2, true, false, false, false⟩] < 2 ^ 64
    ∧ progressCount (runSelectionLoop 5 (fun _ => 3)
        [⟨[7], 1, [8], 2, true, false, false, false⟩] 0 (SelState.init BamBlock)).cerr
      = (runSelectionLoop 5 (fun _ => 3)
        [⟨[7], 1, [8], 2, true, false, false, false⟩] 0 (SelState.init BamBlock)).cnt >>> 20 :=
  ⟨by decide,
    (progress_lines ⟨4, fun seed msg => [seed, msg.length, 0, 0], fun _ _ => rfl⟩ 5 1 0 (fun _ => 3)
      [⟨[7], 1, [8], 2, true, false, false, false⟩] [⟨[65], 3, [1]⟩] [] [] 0 0
      ⟨[65], 3, [1]⟩).2.2.2.2.2.2.2.2.2.2.1 (by decide)⟩

/-- C9: the comparison is inclusive in both modes: an iteration writes the blocks of
its unit exactly when the draw is at most the threshold.  With threshold `0` a unit
whose draw is `0` is written and a unit with a positive draw is not. -/
theorem inclusive_comparison (dig : DigestAlg) (up rv seed : Nat) (ob : OutputBufferEntry)
    (algn : BamAlignment) (s : SelState BamBlock) (t : SelState BamAlignment) :
    (runSelectionBody up rv ob s).Pout = (if rv ≤ up then s.Pout ++ unitBlocks ob else s.Pout)
    ∧ ((runSelectionBody up rv ob s).Pout ≠ s.Pout
        ↔ (rv ≤ up ∧ (ob.fpair || ob.fsingle || ob.forphan1 || ob.forphan2) = true))
    ∧ (runSelectionHashBody dig up seed algn t).Pout
        = (if hashValue dig seed algn.name ≤ up then t.Pout ++ [algn] else t.Pout)
    ∧ ((runSelectionHashBody dig up seed algn t).Pout ≠ t.Pout
        ↔ hashValue dig seed algn.name ≤ up)
    ∧ (runSelectionBody 0 0 ob s).Pout = s.Pout ++ unitBlocks ob
    ∧ (runSelectionBody 0 (rv + 1) ob s).Pout = s.Pout
    ∧ ((runSelectionHashBody dig 0 seed algn t).Pout ≠ t.Pout
        ↔ hashValue dig seed algn.name = 0) := by
  have hb : ∀ up rv, (runSelectionBody up rv ob s).Pout
      = (if rv ≤ up then s.Pout ++ unitBlocks ob else s.Pout) := by
    intro up rv
    rw [body_Pout]; split_ifs <;> simp
  have hh : ∀ up, (runSelectionHashBody dig up seed algn t).Pout
      = (if hashValue dig seed algn.name ≤ up then t.Pout ++ [algn] else t.Pout) := by
    intro up
    rw [hbody_Pout]; split_ifs <;> simp
  refine ⟨hb _ _, ?_, hh _, ?_, ?_, ?_, ?_⟩
  · rw [hb]
    rcases ob with ⟨Da, sa, Db, sb, f1, f2, f3, f4⟩
    by_cases h : rv ≤ up <;> cases f1 <;> cases f2 <;> cases f3 <;> cases f4 <;>
      simp [h, unitBlocks]
  · rw [hh]
    by_cases h : hashValue dig seed algn.name ≤ up <;> simp [h]
  · rw [hb]; simp
  · rw [hb]; simp
  · rw [hh]
    by_cases h : hashValue dig seed algn.name = 0 <;> simp [h]

theorem xor_shiftLeft_eq_add {a k : Nat} (b : Nat) (ha : a < 2 ^ k) :
    a ^^^ (b <<< k) = a + b * 2 ^ k := by
  have h1 : 2 ^ k * b + a = 2 ^ k * b ||| a := Nat.mul_add_lt_is_or ha b
  have h2 : a ^^^ (b <<< k) = b <<< k ||| a := by
    apply Nat.eq_of_testBit_eq
    intro j
    rw [Nat.testBit_xor, Nat.testBit_or, Nat.testBit_shiftLeft]
    by_cases hj : k ≤ j
    · have : a.testBit j = false :=
        Nat.testBit_lt_two_pow (lt_of_lt_of_le ha (Nat.pow_le_pow_right (by norm_num) hj))
      simp [this]
    · simp [hj]
  rw [h2, Nat.shiftLeft_eq, Nat.mul_comm b, ← h1, Nat.add_comm]

theorem word_eq_xor {a b c : Nat} (d : Nat) (ha : a < 256) (hb : b < 256) (hc : c < 256) :
    a + 2 ^ 8 * b + 2 ^ 16 * c + 2 ^ 24 * d
      = a ^^^ (b <<< 8) ^^^ (c <<< 16) ^^^ (d <<< 24) := by
  rw [xor_shiftLeft_eq_add b (show a < 2 ^ 8 by omega),
    xor_shiftLeft_eq_add c (show a + b * 2 ^ 8 < 2 ^ 16 by omega),
    xor_shiftLeft_eq_add d (show a + b * 2 ^ 8 + c * 2 ^ 16 < 2 ^ 24 by omega)]
  omega

theorem foldl_xor_eq_foldr (g : Nat → Nat) (l : List Nat) :
    ∀ acc, l.foldl (fun rv i => rv ^^^ g i) acc
      = acc ^^^ l.foldr (fun i r => g i ^^^ r) 0 := by
  induction l with
  | nil => intro acc; simp
  | cons a t ih =>
    intro acc
    simp only [List.foldl_cons, List.foldr_cons]
    rw [ih, Nat.xor_assoc]

theorem lane_term {b : Nat} (hb : b < 256) (i : Nat) :
    u32 (u8 b <<< (8 * (i &&& 3))) = b <<< (8 * (i % 4)) := by
  have h3 : i &&& 3 = i % 4 := Nat.and_pow_two_sub_one_eq_mod i 2
  have h8 : u8 b = b := Nat.mod_eq_of_lt (by norm_num; exact hb)
  rw [h3, h8]
  unfold u32
  apply Nat.mod_eq_of_lt
  have hi : i % 4 < 4 := Nat.mod_lt _ (by norm_num)
  rw [Nat.shiftLeft_eq]
  interval_cases (i % 4) <;> omega

theorem getD_lt {D : List Nat} (hD : ∀ b ∈ D, b < 256) (i : Nat) : D.getD i 0 < 256 := by
  rcases Nat.lt_or_ge i D.length with h | h
  · rw [List.getD_eq_getElem _ _ h]
    exact hD _ (List.getElem_mem _)
  · rw [List.getD_eq_default _ _ h]
    norm_num

theorem foldDigest_eq_foldr {D : List Nat} (hD : ∀ b ∈ D, b < 256) (dlen : Nat) :
    foldDigest D dlen
      = (List.range dlen).foldr (fun i r => (D.getD i 0 <<< (8 * (i % 4))) ^^^ r) 0 := by
  unfold foldDigest
  have hf : (fun rv i => rv ^^^ u32 (u8 (D.getD i 0) <<< (8 * (i &&& 3))))
      = (fun rv i => rv ^^^ (D.getD i 0 <<< (8 * (i % 4)))) := by
    funext rv i
    rw [lane_term (getD_lt hD i)]
  rw [hf, foldl_xor_eq_foldr (fun i => D.getD i 0 <<< (8 * (i % 4)))]
  simp

theorem xor_regroup (a0 a1 a2 a3 a4 a5 a6 a7 a8 a9 a10 a11 a12 a13 a14 a15 : Nat) :
    a0 ^^^ (a1 ^^^ (a2 ^^^ (a3 ^^^ (a4 ^^^ (a5 ^^^ (a6 ^^^ (a7 ^^^ (a8 ^^^ (a9 ^^^ (a10
      ^^^ (a11 ^^^ (a12 ^^^ (a13 ^^^ (a14 ^^^ (a15 ^^^ 0)))))))))))))))
    = (a0 ^^^ a1 ^^^ a2 ^^^ a3) ^^^ (a4 ^^^ a5 ^^^ a6 ^^^ a7) ^^^ (a8 ^^^ a9 ^^^ a10 ^^^ a11)
      ^^^ (a12 ^^^ a13 ^^^ a14 ^^^ a15) := by
  simp only [Nat.xor_zero, Nat.xor_assoc]

theorem range_sixteen :
    List.range 16 = [0, 1, 2, 3, 4, 5, 6, 7, 8, 9, 10, 11, 12, 13, 14, 15] := by decide

theorem foldDigest_eq_xorFold {D : List Nat} (hD : ∀ b ∈ D, b < 256) :
    foldDigest D D.length = xorFold D := by
  have h := foldDigest_eq_foldr hD D.length
  have hlt := foldDigest_lt D D.length
  unfold xorFold
  rw [← h, Nat.mod_eq_of_lt hlt]

theorem foldDigest_sixteen {D : List Nat} (hD : ∀ b ∈ D, b < 256) (hlen : D.length = 16) :
    foldDigest D D.length = leWord D 0 ^^^ leWord D 1 ^^^ leWord D 2 ^^^ leWord D 3 := by
  rw [foldDigest_eq_foldr hD, hlen, range_sixteen]
  match D, hD, hlen with
  | [d0, d1, d2, d3, d4, d5, d6, d7, d8, d9, d10, d11, d12, d13, d14, d15], hD, _ =>
    have w0 := word_eq_xor d3 (hD d0 (by simp)) (hD d1 (by simp)) (hD d2 (by simp))
    have w1 := word_eq_xor d7 (hD d4 (by simp)) (hD d5 (by simp)) (hD d6 (by simp))
    have w2 := word_eq_xor d11 (hD d8 (by simp)) (hD d9 (by simp)) (hD d10 (by simp))
    have w3 := word_eq_xor d15 (hD d12 (by simp)) (hD d13 (by simp)) (hD d14 (by simp))
    have e0 : leWord [d0, d1, d2, d3, d4, d5, d6, d7, d8, d9, d10, d11, d12, d13, d14, d15] 0
        = d0 + 2 ^ 8 * d1 + 2 ^ 16 * d2 + 2 ^ 24 * d3 := rfl
    have e1 : leWord [d0, d1, d2, d3, d4, d5, d6, d7, d8, d9, d10, d11, d12, d13, d14, d15] 1
        = d4 + 2 ^ 8 * d5 + 2 ^ 16 * d6 + 2 ^ 24 * d7 := rfl
    have e2 : leWord [d0, d1, d2, d3, d4, d5, d6, d7, d8, d9, d10, d11, d12, d13, d14, d15] 2
        = d8 + 2 ^ 8 * d9 + 2 ^ 16 * d10 + 2 ^ 24 * d11 := rfl
    have e3 : leWord [d0, d1, d2, d3, d4, d5, d6, d7, d8, d9, d10, d11, d12, d13, d14, d15] 3
        = d12 + 2 ^ 8 * d13 + 2 ^ 16 * d14 + 2 ^ 24 * d15 := rfl
    have hf : List.foldr
        (fun i r => ([d0, d1, d2, d3, d4, d5, d6, d7, d8, d9, d10, d11, d12, d13, d14,
          d15].getD i 0 <<< (8 * (i % 4))) ^^^ r) 0
        [0, 1, 2, 3, 4, 5, 6, 7, 8, 9, 10, 11, 12, 13, 14, 15]
        = d0 ^^^ (d1 <<< 8 ^^^ (d2 <<< 16 ^^^ (d3 <<< 24 ^^^ (d4 ^^^ (d5 <<< 8
          ^^^ (d6 <<< 16 ^^^ (d7 <<< 24 ^^^ (d8 ^^^ (d9 <<< 8 ^^^ (d10 <<< 16
          ^^^ (d11 <<< 24 ^^^ (d12 ^^^ (d13 <<< 8 ^^^ (d14 <<< 16
          ^^^ (d15 <<< 24 ^^^ 0))))))))))))))) := by
      simp only [List.foldr_cons, List.foldr_nil, List.getD_cons_zero, List.getD_cons_succ,
        Nat.reduceMod, Nat.reduceMul, Nat.shiftLeft_zero]
    rw [e0, e1, e2, e3, w0, w1, w2, w3, hf]
    exact xor_regroup _ _ _ _ _ _ _ _ _ _ _ _ _ _ _ _

theorem foldDigest_map_u8 (D : List Nat) (dlen : Nat) :
    foldDigest (D.map u8) dlen = foldDigest D dlen := by
  unfold foldDigest
  have hf : (fun rv i => rv ^^^ u32 (u8 ((D.map u8).getD i 0) <<< (8 * (i &&& 3))))
      = (fun rv i => rv ^^^ u32 (u8 (D.getD i 0) <<< (8 * (i &&& 3)))) := by
    funext rv i
    have h0 : (D.map u8).getD i 0 = u8 (D.getD i 0) := by
      have := List.getD_map (l := D) (d := 0) (n := i) u8
      simpa [u8] using this
    have h1 : u8 (u8 (D.getD i 0)) = u8 (D.getD i 0) := by
      unfold u8; omega
    rw [h0, h1]
  rw [hf]

theorem digestBytes_lt (dig : DigestAlg) (seed : Nat) (qname : List Nat) :
    ∀ b ∈ digestBytes dig seed qname, b < 256 := by
  intro b hb
  unfold digestBytes at hb
  obtain ⟨a, _, rfl⟩ := List.mem_map.mp hb
  unfold u8
  omega

theorem digestBytes_length (dig : DigestAlg) (seed : Nat) (qname : List Nat) :
    (digestBytes dig seed qname).length = dig.getDigestLength := by
  unfold digestBytes
  rw [List.length_map, dig.digest_length]

theorem digestBytes_eq_self (dig : DigestAlg) (seed : Nat) (qname : List Nat)
    (h : ∀ b ∈ dig.digest seed qname, b < 256) :
    digestBytes dig seed qname = dig.digest seed qname := by
  unfold digestBytes
  conv_rhs => rw [← List.map_id (dig.digest seed qname)]
  apply List.map_congr_left
  intro a ha
  exact Nat.mod_eq_of_lt (by have := h a ha; omega)

theorem hashValue_eq_foldDigest (dig : DigestAlg) (seed : Nat) (qname : List Nat) :
    hashValue dig seed qname
      = foldDigest (digestBytes dig seed qname) (digestBytes dig seed qname).length := by
  rw [digestBytes_length]
  unfold hashValue digestBytes
  rw [foldDigest_map_u8]

theorem hashValue_eq_xorFold (dig : DigestAlg) (seed : Nat) (qname : List Nat) :
    hashValue dig seed qname = xorFold (digestBytes dig seed qname) := by
  rw [hashValue_eq_foldDigest, foldDigest_eq_xorFold (digestBytes_lt dig seed qname)]

/-- C10: the draw `rv` of hash mode (lines 186-194) combines every byte of the digest:
for every digest, seed and record name it is the XOR over all positions `i` below the
digest length of `D[i] << (8 * (i mod 4))`, modulo `2^32`, and this is the value the
loop compares with the threshold; for a 16-byte digest it is the XOR of the four
little-endian 32-bit words of `D`; and it is not a truncation: two digests with the
same first four bytes can give different draws.  The same is stated for the fold of
lines 192-194 over any byte sequence `D`. -/
theorem digest_fold_all_bytes (dig : DigestAlg) (up seed : Nat) (algn : BamAlignment)
    (t : SelState BamAlignment) (D : List Nat) (hD : ∀ b ∈ D, b < 256) :
    foldDigest D D.length = xorFold D
    ∧ (D.length = 16 →
        foldDigest D D.length = leWord D 0 ^^^ leWord D 1 ^^^ leWord D 2 ^^^ leWord D 3)
    ∧ (∃ D1 D2 : List Nat, D1.length = 16 ∧ D2.length = 16
        ∧ (∀ b ∈ D1, b < 256) ∧ (∀ b ∈ D2, b < 256)
        ∧ D1.take 4 = D2.take 4 ∧ foldDigest D1 16 ≠ foldDigest D2 16
        ∧ foldDigest D2 16 ≠ leWord D2 0)
    ∧ (∀ qname : List Nat, hashValue dig seed qname = xorFold (digestBytes dig seed qname))
    ∧ (∀ qname : List Nat, (∀ b ∈ dig.digest seed qname, b < 256) →
        hashValue dig seed qname = xorFold (dig.digest seed qname))
    ∧ (∀ qname : List Nat, (digestBytes dig seed qname).length = dig.getDigestLength)
    ∧ (dig.getDigestLength = 16 → ∀ qname : List Nat,
        hashValue dig seed qname
          = leWord (digestBytes dig seed qname) 0 ^^^ leWord (digestBytes dig seed qname) 1
            ^^^ leWord (digestBytes dig seed qname) 2 ^^^ leWord (digestBytes dig seed qname) 3)
    ∧ (runSelectionHashBody dig up seed algn t).Pout
        = (if xorFold (digestBytes dig seed algn.name) ≤ up then t.Pout ++ [algn] else t.Pout)
    ∧ (∃ (dig2 : DigestAlg) (seed2 : Nat) (q1 q2 : List Nat), dig2.getDigestLength = 16
        ∧ (digestBytes dig2 seed2 q1).take 4 = (digestBytes dig2 seed2 q2).take 4
        ∧ hashValue dig2 seed2 q1 ≠ hashValue dig2 seed2 q2
        ∧ hashValue dig2 seed2 q2 ≠ leWord (digestBytes dig2 seed2 q2) 0) := by
  refine ⟨foldDigest_eq_xorFold hD, foldDigest_sixteen hD, ?_, hashValue_eq_xorFold dig seed,
    ?_, digestBytes_length dig seed, ?_, ?_, ?_⟩
  · refine ⟨List.replicate 16 0, [0, 0, 0, 0, 1, 0, 0, 0, 0, 0, 0, 0, 0, 0, 0, 0],
      by decide, by decide, by decide, by decide, by decide, by decide, by decide⟩
  · intro qname h
    rw [hashValue_eq_xorFold, digestBytes_eq_self dig seed qname h]
  · intro h16 qname
    rw [hashValue_eq_foldDigest]
    exact foldDigest_sixteen (digestBytes_lt dig seed qname)
      (by rw [digestBytes_length, h16])
  · rw [hbody_Pout, hashValue_eq_xorFold]
    split_ifs <;> simp
  · refine ⟨⟨16, fun _ msg => [0, 0, 0, 0, msg.length, 0, 0, 0, 0, 0, 0, 0, 0, 0, 0, 0],
      fun _ _ => rfl⟩, 0, [], [65], rfl, by decide, by decide, by decide⟩

theorem digest_fold_all_bytes_witness :
    (∀ b ∈ [1, 2, 3, 4, 5, 6, 7, 8, 9, 10, 11, 12, 13, 14, 15, 16], b < 256)
    ∧ foldDigest [1, 2, 3, 4, 5, 6, 7, 8, 9, 10, 11, 12, 13, 14, 15, 16] 16
        = leWord [1, 2, 3, 4, 5, 6, 7, 8, 9, 10, 11, 12, 13, 14, 15, 16] 0
          ^^^ leWord [1, 2, 3, 4, 5, 6, 7, 8, 9, 10, 11, 12, 13, 14, 15, 16] 1
          ^^^ leWord [1, 2, 3, 4, 5, 6, 7, 8, 9, 10, 11, 12, 13, 14, 15, 16] 2
          ^^^ leWord [1, 2, 3, 4, 5, 6, 7, 8, 9, 10, 11, 12, 13, 14, 15, 16] 3
    ∧ hashValue ⟨16, fun seed msg =>
          [seed, msg.length, 3, 4, 5, 6, 7, 8, 9, 10, 11, 12, 13, 14, 15, 16],
          fun _ _ => rfl⟩ 7 [65, 66]
        = xorFold [7, 2, 3, 4, 5, 6, 7, 8, 9, 10, 11, 12, 13, 14, 15, 16] :=
  ⟨by decide,
    (digest_fold_all_bytes
      ⟨16, fun seed msg => [seed, msg.length, 3, 4, 5, 6, 7, 8, 9, 10, 11, 12, 13, 14, 15, 16],
        fun _ _ => rfl⟩ 5 7 ⟨[65, 66], 3, [1]⟩ (SelState.init BamAlignment)
      [1, 2, 3, 4, 5, 6, 7, 8, 9, 10, 11, 12, 13, 14, 15, 16] (by decide)).2.1 rfl,
    (digest_fold_all_bytes
      ⟨16, fun seed msg => [seed, msg.length, 3, 4, 5, 6, 7, 8, 9, 10, 11, 12, 13, 14, 15, 16],
        fun _ _ => rfl⟩ 5 7 ⟨[65, 66], 3, [1]⟩ (SelState.init BamAlignment)
      [1, 2, 3, 4, 5, 6, 7, 8, 9, 10, 11, 12, 13, 14, 15, 16] (by decide)).2.2.2.2.1
      [65, 66] (by decide)⟩

theorem roundHalfEven_eq_of_near {q : ℚ} {n : ℤ} (h1 : (n : ℚ) - 1 / 2 < q)
    (h2 : q < (n : ℚ) + 1 / 2) : roundHalfEven q = n := by
  have f1 : (⌊q⌋ : ℚ) ≤ q := Int.floor_le q
  have f2 : q < (⌊q⌋ : ℚ) + 1 := Int.lt_floor_add_one q
  have g1 : ((n - 1 : ℤ) : ℚ) < (⌊q⌋ : ℚ) + 1 := by push_cast; linarith
  have g2 : (⌊q⌋ : ℚ) < ((n + 1 : ℤ) : ℚ) := by push_cast; linarith
  have g1' : n - 1 < ⌊q⌋ + 1 := by exact_mod_cast g1
  have g2' : ⌊q⌋ < n + 1 := by exact_mod_cast g2
  have hc : ⌊q⌋ = n ∨ ⌊q⌋ = n - 1 := by omega
  unfold roundHalfEven
  rcases hc with hc | hc
  · rw [hc] at f1 f2 ⊢
    rw [if_pos (by linarith)]
  · rw [hc] at f1 f2 ⊢
    push_cast at f1 f2 ⊢
    rw [if_neg (by linarith), if_pos (by linarith)]
    ring

/-- The threshold is the double computation, not the exactly rounded product: at
`p = 1/2 + 2^-32` the product `p * UINT32_MAX = 2^31 + 1/2 - 2^-32` is rounded to
`2^31 + 1/2` before `0.5` is added, so the threshold is `2^31 + 1`, whereas
`floor(p * UINT32_MAX + 0.5)` in exact arithmetic is `2^31`. -/
theorem up_double_rounding :
    bamdownsamplerandom_up (1 / 2 + 1 / 2 ^ 32) = 2147483649
    ∧ ⌊(1 / 2 + 1 / 2 ^ 32 : ℚ) * 4294967295 + 1 / 2⌋ = 2147483648 := by
  constructor
  · rw [up_eq_clamp (by norm_num)]
    have hx : fmul (1 / 2 + 1 / 2 ^ 32) (castDouble UINT32_MAX) = 4294967297 / 2 := by
      unfold fmul rnd
      have hb : binade ((1 / 2 + 1 / 2 ^ 32) * castDouble UINT32_MAX) = 31 := by
        apply binade_eq <;> norm_num [castDouble, UINT32_MAX]
      have hu : ulp ((1 / 2 + 1 / 2 ^ 32) * castDouble UINT32_MAX) = 1 / 2 ^ 21 := by
        unfold ulp; rw [hb]; norm_num
      rw [hu, roundHalfEven_eq_of_near (n := 4294967297 * 2 ^ 20)]
      · norm_num
      · norm_num [castDouble, UINT32_MAX]
      · norm_num [castDouble, UINT32_MAX]
    have hy : fadd (4294967297 / 2) (1 / 2) = 2147483649 := by
      unfold fadd
      have hb : binade ((4294967297 / 2 : ℚ) + 1 / 2) = 31 := by
        apply binade_eq <;> norm_num
      have hs : rnd ((4294967297 / 2 : ℚ) + 1 / 2) = (4294967297 / 2 : ℚ) + 1 / 2 := by
        apply rnd_eq_self_of_grid (n := 2147483649 * 2 ^ 21)
        unfold ulp; rw [hb]; norm_num
      rw [hs]; norm_num
    have hr : roundedProduct (1 / 2 + 1 / 2 ^ 32) = 2147483649 := by
      unfold roundedProduct
      rw [hx, hy]
      exact Int.floor_intCast 2147483649
    rw [hr]
    simp [UINT32_MAX]
  · rw [Int.floor_eq_iff]
    norm_num


/-! ## Counter invariant -/

theorem u64_add_u64_right (a b : Nat) : u64 (a + u64 b) = u64 (a + b) := by
  unfold u64
  omega

theorem body_bcnt (up rv : Nat) (ob : OutputBufferEntry) (s : SelState BamBlock)
    (hs : s.bcnt < 2 ^ 64) :
    (runSelectionBody up rv ob s).bcnt = u64 (s.bcnt + unitBytes ob) := by
  have h0 : u64 s.bcnt = s.bcnt := Nat.mod_eq_of_lt hs
  have hb : ∀ c : SelState BamBlock, (report s.cnt c).bcnt = c.bcnt := by
    intro c; unfold report; split_ifs <;> rfl
  unfold runSelectionBody unitBytes
  simp only [hb]
  rcases ob with ⟨Da, sa, Db, sb, f1, f2, f3, f4⟩
  cases f1 <;> cases f2 <;> cases f3 <;> cases f4 <;> by_cases h : rv ≤ up <;>
    simp [h, h0, u64_add_u64_right]

theorem loop_bcnt (up : Nat) (rand : Nat → Nat) (l : List OutputBufferEntry) :
    ∀ (i : Nat) (s : SelState BamBlock), s.bcnt < 2 ^ 64 →
      (runSelectionLoop up rand l i s).bcnt = u64 (s.bcnt + streamBytes l) := by
  induction l with
  | nil =>
    intro i s hs
    have h0 : u64 s.bcnt = s.bcnt := Nat.mod_eq_of_lt hs
    simp [runSelectionLoop, streamBytes, h0]
  | cons ob rest ih =>
    intro i s hs
    simp only [runSelectionLoop]
    rw [ih _ _ (by rw [body_bcnt up _ ob s hs]; exact u64_lt _), body_bcnt up _ ob s hs,
      u64_add_u64]
    simp [streamBytes, Nat.add_assoc]

theorem loop_append (up : Nat) (rand : Nat → Nat) (l : List OutputBufferEntry)
    (ob : OutputBufferEntry) :
    ∀ (i : Nat) (s : SelState BamBlock),
      runSelectionLoop up rand (l ++ [ob]) i s
        = runSelectionBody up (u32 (rand (i + l.length))) ob (runSelectionLoop up rand l i s) := by
  induction l with
  | nil => intro i s; simp [runSelectionLoop]
  | cons a rest ih =>
    intro i s
    rw [List.cons_append]
    simp only [runSelectionLoop, List.length_cons]
    rw [ih, show i + 1 + rest.length = i + (rest.length + 1) by omega]

theorem keptBlocks_append (up : Nat) (rand : Nat → Nat) (l1 l2 : List OutputBufferEntry) :
    ∀ i, keptBlocks up rand (l1 ++ l2) i
      = keptBlocks up rand l1 i ++ keptBlocks up rand l2 (i + l1.length) := by
  induction l1 with
  | nil => intro i; simp [keptBlocks]
  | cons a rest ih =>
    intro i
    rw [List.cons_append]
    simp only [keptBlocks, List.length_cons]
    rw [ih, List.append_assoc, show i + 1 + rest.length = i + (rest.length + 1) by omega]

theorem keptBlocks_length_le (up : Nat) (rand : Nat → Nat) (l : List OutputBufferEntry) :
    ∀ i, (keptBlocks up rand l i).length ≤ streamRecords l := by
  induction l with
  | nil => intro i; simp [keptBlocks, streamRecords]
  | cons a rest ih =>
    intro i
    have h := ih (i + 1)
    have ha : (if u32 (rand i) ≤ up then unitBlocks a else []).length ≤ unitRecords a := by
      rw [unitRecords_eq_length]
      split_ifs <;> simp
    simp only [keptBlocks, List.length_append, streamRecords, List.map_cons, List.sum_cons]
    unfold streamRecords at h
    omega

theorem streamRecords_append (l1 l2 : List OutputBufferEntry) :
    streamRecords (l1 ++ l2) = streamRecords l1 + streamRecords l2 := by
  simp [streamRecords]

theorem streamBytes_append (l1 l2 : List OutputBufferEntry) :
    streamBytes (l1 ++ l2) = streamBytes l1 + streamBytes l2 := by
  simp [streamBytes]

theorem alignmentBytes_append (l1 l2 : List BamAlignment) :
    alignmentBytes (l1 ++ l2) = alignmentBytes l1 + alignmentBytes l2 := by
  simp [alignmentBytes]

theorem hbody_bcnt (dig : DigestAlg) (up seed : Nat) (algn : BamAlignment)
    (s : SelState BamAlignment) :
    (runSelectionHashBody dig up seed algn s).bcnt = u64 (s.bcnt + (algn.blocksize + 4)) := by
  have hb : ∀ c : SelState BamAlignment, (report s.cnt c).bcnt = c.bcnt := by
    intro c; unfold report; split_ifs <;> rfl
  unfold runSelectionHashBody
  simp only [hb]
  split_ifs <;> simp [u64_add_u64_right]

theorem hloop_bcnt (dig : DigestAlg) (up seed : Nat) (l : List BamAlignment) :
    ∀ s : SelState BamAlignment, s.bcnt < 2 ^ 64 →
      (runSelectionHashLoop dig up seed l s).bcnt = u64 (s.bcnt + alignmentBytes l) := by
  induction l with
  | nil =>
    intro s hs
    have h0 : u64 s.bcnt = s.bcnt := Nat.mod_eq_of_lt hs
    simp [runSelectionHashLoop, alignmentBytes, h0]
  | cons a rest ih =>
    intro s hs
    simp only [runSelectionHashLoop]
    rw [ih _ (by rw [hbody_bcnt]; exact u64_lt _), hbody_bcnt, u64_add_u64]
    simp [alignmentBytes, Nat.add_assoc]

theorem hloop_append (dig : DigestAlg) (up seed : Nat) (l : List BamAlignment)
    (algn : BamAlignment) :
    ∀ s : SelState BamAlignment,
      runSelectionHashLoop dig up seed (l ++ [algn]) s
        = runSelectionHashBody dig up seed algn (runSelectionHashLoop dig up seed l s) := by
  induction l with
  | nil => intro s; simp [runSelectionHashLoop]
  | cons a rest ih =>
    intro s
    rw [List.cons_append]
    simp only [runSelectionHashLoop]
    rw [ih]


theorem stateAfter_counters (up : Nat) (rand : Nat → Nat) (i : Nat)
    (l : List OutputBufferEntry) (hrec : streamRecords l < 2 ^ 64)
    (hbytes : streamBytes l < 2 ^ 64) :
    (stateAfter up rand i l).cnt = streamRecords l
    ∧ (stateAfter up rand i l).bcnt = streamBytes l
    ∧ (stateAfter up rand i l).ocnt = (keptBlocks up rand l i).length
    ∧ (stateAfter up rand i l).Pout = keptBlocks up rand l i := by
  have hk := keptBlocks_length_le up rand l i
  unfold stateAfter
  rw [loop_cnt _ _ _ _ _ (by simp [SelState.init]), loop_bcnt _ _ _ _ _ (by simp [SelState.init]),
    loop_ocnt _ _ _ _ _ (by simp [SelState.init]), loop_Pout]
  refine ⟨?_, ?_, ?_, ?_⟩
  · have h : u64 (streamRecords l) = streamRecords l := Nat.mod_eq_of_lt hrec
    simp [SelState.init, h]
  · have h : u64 (streamBytes l) = streamBytes l := Nat.mod_eq_of_lt hbytes
    simp [SelState.init, h]
  · have h : u64 (keptBlocks up rand l i).length = (keptBlocks up rand l i).length :=
      Nat.mod_eq_of_lt (by omega)
    simp [SelState.init, h]
  · simp [SelState.init]

theorem hashStateAfter_counters (dig : DigestAlg) (up seed : Nat) (l : List BamAlignment)
    (hrec : l.length < 2 ^ 64) (hbytes : alignmentBytes l < 2 ^ 64) :
    (hashStateAfter dig up seed l).cnt = l.length
    ∧ (hashStateAfter dig up seed l).bcnt = alignmentBytes l
    ∧ (hashStateAfter dig up seed l).ocnt
        = (l.filter (fun a => decide (hashValue dig seed a.name ≤ up))).length
    ∧ (hashStateAfter dig up seed l).Pout
        = l.filter (fun a => decide (hashValue dig seed a.name ≤ up)) := by
  have hk := List.length_filter_le (fun a => decide (hashValue dig seed a.name ≤ up)) l
  unfold hashStateAfter
  rw [hloop_cnt _ _ _ _ _ (by simp [SelState.init]),
    hloop_bcnt _ _ _ _ _ (by simp [SelState.init]),
    hloop_ocnt _ _ _ _ _ (by simp [SelState.init]), hloop_Pout]
  refine ⟨?_, ?_, ?_, ?_⟩
  · have h : u64 l.length = l.length := Nat.mod_eq_of_lt hrec
    simp [SelState.init, h]
  · have h : u64 (alignmentBytes l) = alignmentBytes l := Nat.mod_eq_of_lt hbytes
    simp [SelState.init, h]
  · have h : u64 (l.filter (fun a => decide (hashValue dig seed a.name ≤ up))).length
        = (l.filter (fun a => decide (hashValue dig seed a.name ≤ up))).length :=
      Nat.mod_eq_of_lt (by omega)
    simp [SelState.init, h]
  · simp [SelState.init]

/-- C11: counter invariant.  Let the loop have processed the units `l` and then run
one more iteration on `ob` (hash mode: records `hl`, then `algn`), fewer than `2^64`
records and bytes in all.  After that iteration the kept count is at most the
processed count, the kept count is the number of blocks written so far, the
processed count is the number of blocks carried by the units seen so far (2 per
pair, 1 per single or orphan unit or hash-mode record), and none of `cnt`, `bcnt`,
`ocnt` is smaller than before the iteration. -/
theorem counter_invariant (dig : DigestAlg) (up seed i : Nat) (rand : Nat → Nat)
    (l : List OutputBufferEntry) (ob : OutputBufferEntry)
    (hl : List BamAlignment) (algn : BamAlignment)
    (hrec : streamRecords (l ++ [ob]) < 2 ^ 64) (hbytes : streamBytes (l ++ [ob]) < 2 ^ 64)
    (hhrec : (hl ++ [algn]).length < 2 ^ 64)
    (hhbytes : alignmentBytes (hl ++ [algn]) < 2 ^ 64) :
    stateAfter up rand i (l ++ [ob])
        = runSelectionBody up (u32 (rand (i + l.length))) ob (stateAfter up rand i l)
    ∧ (stateAfter up rand i (l ++ [ob])).ocnt ≤ (stateAfter up rand i (l ++ [ob])).cnt
    ∧ (stateAfter up rand i (l ++ [ob])).ocnt = (stateAfter up rand i (l ++ [ob])).Pout.length
    ∧ (stateAfter up rand i (l ++ [ob])).cnt = streamRecords (l ++ [ob])
    ∧ (stateAfter up rand i l).cnt ≤ (stateAfter up rand i (l ++ [ob])).cnt
    ∧ (stateAfter up rand i l).bcnt ≤ (stateAfter up rand i (l ++ [ob])).bcnt
    ∧ (stateAfter up rand i l).ocnt ≤ (stateAfter up rand i (l ++ [ob])).ocnt
    ∧ hashStateAfter dig up seed (hl ++ [algn])
        = runSelectionHashBody dig up seed algn (hashStateAfter dig up seed hl)
    ∧ (hashStateAfter dig up seed (hl ++ [algn])).ocnt
        ≤ (hashStateAfter dig up seed (hl ++ [algn])).cnt
    ∧ (hashStateAfter dig up seed (hl ++ [algn])).ocnt
        = (hashStateAfter dig up seed (hl ++ [algn])).Pout.length
    ∧ (hashStateAfter dig up seed (hl ++ [algn])).cnt = (hl ++ [algn]).length
    ∧ (hashStateAfter dig up seed hl).cnt ≤ (hashStateAfter dig up seed (hl ++ [algn])).cnt
    ∧ (hashStateAfter dig up seed hl).bcnt ≤ (hashStateAfter dig up seed (hl ++ [algn])).bcnt
    ∧ (hashStateAfter dig up seed hl).ocnt
        ≤ (hashStateAfter dig up seed (hl ++ [algn])).ocnt := by
  have r1 := streamRecords_append l [ob]
  have b1 := streamBytes_append l [ob]
  have k1 := keptBlocks_append up rand l [ob] i
  have kl := keptBlocks_length_le up rand (l ++ [ob]) i
  obtain ⟨c', bc', o', p'⟩ := stateAfter_counters up rand i (l ++ [ob]) hrec hbytes
  obtain ⟨c, bc, o, _⟩ := stateAfter_counters up rand i l (by omega) (by omega)
  have hb1 := alignmentBytes_append hl [algn]
  have hlen : (hl ++ [algn]).length = hl.length + 1 := by simp
  have hf : (hl ++ [algn]).filter (fun a => decide (hashValue dig seed a.name ≤ up))
      = hl.filter (fun a => decide (hashValue dig seed a.name ≤ up))
        ++ [algn].filter (fun a => decide (hashValue dig seed a.name ≤ up)) :=
    List.filter_append _ _
  have hfl := List.length_filter_le (fun a => decide (hashValue dig seed a.name ≤ up))
    (hl ++ [algn])
  obtain ⟨hc', hbc', ho', hp'⟩ := hashStateAfter_counters dig up seed (hl ++ [algn]) hhrec hhbytes
  obtain ⟨hc, hbc, ho, _⟩ := hashStateAfter_counters dig up seed hl (by omega) (by omega)
  refine ⟨loop_append up rand l ob i _, ?_, ?_, c', ?_, ?_, ?_,
    hloop_append dig up seed hl algn _, ?_, ?_, hc', ?_, ?_, ?_⟩
  · rw [o', c']; exact kl
  · rw [o', p']
  · rw [c, c']; omega
  · rw [bc, bc']; omega
  · rw [o, o', k1, List.length_append]; omega
  · rw [ho', hc']; exact hfl
  · rw [ho', hp']
  · rw [hc, hc']; omega
  · rw [hbc, hbc']; omega
  · rw [ho, ho', hf, List.length_append]; omega

theorem counter_invariant_witness :
    streamRecords ([(⟨[9], 1, [], 0, false, true, false, false⟩ : OutputBufferEntry)]
        ++ [(⟨[7], 1, [8], 2, true, false, false, false⟩ : OutputBufferEntry)]) < 2 ^ 64
    ∧ streamBytes ([(⟨[9], 1, [], 0, false, true, false, false⟩ : OutputBufferEntry)]
        ++ [(⟨[7], 1, [8], 2, true, false, false, false⟩ : OutputBufferEntry)]) < 2 ^ 64
    ∧ ([(⟨[65], 3, [1]⟩ : BamAlignment)] ++ [(⟨[66], 3, [2]⟩ : BamAlignment)]).length < 2 ^ 64
    ∧ alignmentBytes ([(⟨[65], 3, [1]⟩ : BamAlignment)] ++ [(⟨[66], 3, [2]⟩ : BamAlignment)]) < 2 ^ 64
    ∧ (stateAfter 5 (fun j => 3 * j) 0
        ([(⟨[9], 1, [], 0, false, true, false, false⟩ : OutputBufferEntry)]
        ++ [(⟨[7], 1, [8], 2, true, false, false, false⟩ : OutputBufferEntry)])).cnt
      = streamRecords ([(⟨[9], 1, [], 0, false, true, false, false⟩ : OutputBufferEntry)]
        ++ [(⟨[7], 1, [8], 2, true, false, false, false⟩ : OutputBufferEntry)]) :=
  ⟨by decide, by decide, by decide, by decide,
    (counter_invariant ⟨4, fun seed msg => [seed, msg.length, 0, 0], fun _ _ => rfl⟩ 5 1 0
      (fun j => 3 * j) [⟨[9], 1, [], 0, false, true, false, false⟩]
      ⟨[7], 1, [8], 2, true, false, false, false⟩ [⟨[65], 3, [1]⟩] ⟨[66], 3, [2]⟩
      (by decide) (by decide) (by decide) (by decide)).2.2.2.1⟩

end Bamdownsamplerandom
